import Mathlib

/-!
# Target allocator manifests: configuration synthesis and scrape-config extraction

A shallow embedding of

* `internal/manifests/targetallocator/configmap.go` (`ConfigMap`, `getScrapeConfigs`), and
* `internal/manifests/collector/targetallocator.go` (`TargetAllocator`,
  `TargetAllocatorPrometheusCR`, `getScrapeConfigs`),

followed by theorems about them.

Conventions of the embedding.

* A Go value of static type `interface{}` is a `Value`.
* A Go map is an association list with at most one entry per key; assignment `m[k] = v`
  is `MapAny.set`, which overwrites an existing entry.  A map or slice that the source
  tests against `nil` is an `Option`, `none` standing for `nil`.
* A Go function returning `(T, error)` whose error returns all carry the zero value of `T`
  is an `Except Error T`.  `ConfigMap` has an error return that carries a non-nil object, so
  it returns the pair itself.
* A function body that reads through a pointer returns an `Outcome`: a value, or a panic.
* Functions and types that the two source files import from elsewhere are fields of `Yaml`,
  `Adapters` and `Env`; theorems quantify over them unless stated otherwise.  The package
  `adapters` is also given as the specification describes it (`adapters.fromSpec`), and the
  YAML library by an executable reference instance (`refYaml.lib`), on which the statements
  are instantiated.
-/

set_option autoImplicit false

/-! ## Go values -/

/-- A Go `error`, identified by its message. -/
structure Error where
  msg : String
deriving DecidableEq, Repr

/-- The type `map[string]string`; `none` is the nil map. -/
abbrev StringMap := Option (List (String × String))

namespace metav1

/-- The type `metav1.LabelSelectorRequirement`. -/
structure LabelSelectorRequirement where
  Key : String
  Operator : String
  Values : List String
deriving DecidableEq, Repr

/-- The type `metav1.LabelSelector`. `MatchExpressions` is a slice; the nil slice is `[]`. -/
structure LabelSelector where
  MatchLabels : StringMap := none
  MatchExpressions : List LabelSelectorRequirement := []
deriving DecidableEq, Repr

/-- The type `metav1.Duration`: a wrapper around `time.Duration`, a signed 64-bit count of
nanoseconds. -/
structure Duration where
  Duration : Int
deriving DecidableEq, Repr

/-- The fields of `metav1.ObjectMeta` that the source reads. -/
structure ObjectMeta where
  Name : String := ""
  Namespace : String := ""
  Labels : StringMap := none
  Annotations : StringMap := none
deriving DecidableEq, Repr

end metav1

mutual
/-- A Go value held in an `interface{}`: the generic values a YAML decoder produces, and the
typed values `ConfigMap` stores in the document it builds. -/
inductive Value where
  /-- The untyped nil. -/
  | null
  | bool (b : Bool)
  | int (n : Int)
  | str (s : String)
  /-- A `time.Duration`, in nanoseconds. -/
  | duration (d : Int)
  /-- A `metav1.LabelSelector` struct value. -/
  | labelSelector (s : metav1.LabelSelector)
  /-- A `*metav1.LabelSelector`; `none` is the nil pointer. -/
  | labelSelectorPtr (p : Option metav1.LabelSelector)
  /-- A `[]interface{}`. -/
  | seq (xs : List Value)
  /-- A `map[interface{}]interface{}`. -/
  | mapAny (kvs : List (Value × Value))
  /-- A `map[string]interface{}`. -/
  | mapStr (kvs : List (String × Value))
  /-- A `[]v1beta1.AnyConfig`. -/
  | anyConfigs (xs : List AnyConfig)
/-- The type `v1beta1.AnyConfig`: a struct with the single field `Object map[string]interface{}`. -/
inductive AnyConfig where
  | mk (Object : List (String × Value))
end

/-- The field `Object` of an `AnyConfig`. -/
def AnyConfig.Object : AnyConfig → List (String × Value)
  | .mk o => o

/-- Whether a map key held in an `interface{}` is the string `k`. -/
def Value.isKey (k : String) : Value → Bool
  | .str s => s == k
  | _ => false

/-- The assignment `m[k] = v` on a `map[interface{}]interface{}`, for a string key `k`. -/
def MapAny.set : List (Value × Value) → String → Value → List (Value × Value)
  | [], k, v => [(.str k, v)]
  | (k', v') :: rest, k, v =>
    if k'.isKey k then (k', v) :: rest else (k', v') :: MapAny.set rest k v

/-- The lookup `m[k]` on a `map[interface{}]interface{}`, for a string key `k`. -/
def MapAny.get? : List (Value × Value) → String → Option Value
  | [], _ => none
  | (k', v') :: rest, k => if k'.isKey k then some v' else MapAny.get? rest k

/-- The lookup `m[k]` on a `map[string]interface{}`. -/
def MapStr.get? : List (String × Value) → String → Option Value
  | [], _ => none
  | (k', v') :: rest, k => if k' == k then some v' else MapStr.get? rest k

/-- The entry under the string key `k` of a value that is a mapping; `none` when the value
is not a mapping or has no such key. -/
def Value.get? (v : Value) (k : String) : Option Value :=
  match v with
  | .mapAny kvs => MapAny.get? kvs k
  | .mapStr kvs => MapStr.get? kvs k
  | _ => none

/-- The string keys of a value that is a mapping. -/
def Value.keys : Value → List String
  | .mapAny kvs => kvs.filterMap fun kv => match kv.1 with
      | .str s => some s
      | _ => none
  | .mapStr kvs => kvs.map Prod.fst
  | _ => []

/-! ## Resource types -/

namespace v1beta1

/-- The type `v1beta1.Config`, the collector configuration. Only `Receivers` is named by
the source (in its tests); the function reads the configuration through `Yaml()` alone. -/
structure Config where
  Receivers : AnyConfig

/-- The discovery sub-spec `Spec.PrometheusCR` of the allocator resource. -/
structure TargetAllocatorPrometheusCR where
  Enabled : Bool := false
  ScrapeInterval : Option metav1.Duration := none
  PodMonitorSelector : Option metav1.LabelSelector := none
  ServiceMonitorSelector : Option metav1.LabelSelector := none

/-- The fields of the allocator's `Spec` that `ConfigMap` reads. `ScrapeConfigs` is a slice
that the source tests against nil. -/
structure TargetAllocatorSpec where
  Image : String := ""
  ScrapeConfigs : Option (List AnyConfig) := none
  AllocationStrategy : String := ""
  FilterStrategy : String := ""
  PrometheusCR : TargetAllocatorPrometheusCR := {}

/-- The allocator resource `params.TargetAllocator`. -/
structure TargetAllocator where
  ObjectMeta : metav1.ObjectMeta := {}
  Spec : TargetAllocatorSpec := {}

/-- The fields of the collector's `Spec` that `ConfigMap` reads. -/
structure OpenTelemetryCollectorSpec where
  Config : Config

/-- The collector resource `params.Collector` points to. -/
structure OpenTelemetryCollector where
  ObjectMeta : metav1.ObjectMeta := {}
  Spec : OpenTelemetryCollectorSpec

/-- Modelled from the spec: the constant `v1beta1.TargetAllocatorAllocationStrategyConsistentHashing`
is declared outside the two source files; the spec gives its value as the literal default
`"consistent-hashing"`. -/
def TargetAllocatorAllocationStrategyConsistentHashing : String := "consistent-hashing"

end v1beta1

namespace corev1

/-- The fields of `corev1.ConfigMap` that the source sets. `{}` is `corev1.ConfigMap{}`. -/
structure ConfigMap where
  ObjectMeta : metav1.ObjectMeta := {}
  Data : List (String × String) := []
deriving DecidableEq, Repr

end corev1

/-! ## Imported functions -/

/-- The functions of `gopkg.in/yaml.v2` that the source calls. -/
structure Yaml where
  /-- `yaml.Marshal(v)`. -/
  Marshal : Value → Except Error String
  /-- `yaml.Unmarshal(text, &out)` for `out` of type `interface{}`. -/
  Unmarshal : String → Except Error Value
  /-- `yaml.Unmarshal(text, &out)` for `out` of type `map[string]any`, initially nil: the
  content of `out` afterwards. -/
  UnmarshalStringMap : String → Except Error (List (String × Value))

/-- The functions of the package `targetallocator/adapters` that the source calls. The
value `UnescapeDollarSignsInPromConfig` hands to `GetScrapeConfigsFromPromConfig` is a
configuration text. -/
structure Adapters where
  UnescapeDollarSignsInPromConfig : String → Except Error String
  GetScrapeConfigsFromPromConfig : String → Except Error (List Value)

/-- Everything `ConfigMap` imports. -/
structure Env where
  yaml : Yaml
  adapters : Adapters
  /-- The method `(v1beta1.Config).Yaml()`. -/
  ConfigYaml : v1beta1.Config → Except Error String
  /-- The function `naming.TAConfigMap`. -/
  TAConfigMap : String → String
  /-- The function `manifestutils.Labels`, applied to the object meta, the name, the image and
  the component (its last argument is nil at the call). -/
  Labels : metav1.ObjectMeta → String → String → String → StringMap
  /-- The function `manifestutils.SelectorLabels`. -/
  SelectorLabels : metav1.ObjectMeta → String → StringMap

/-- The number of bits of `x`, as `math/bits.Len64` computes it on a 64-bit word. -/
def bitsLen64 (x : Nat) : Nat :=
  (List.range 64).foldl (fun n i => if x / 2 ^ i % 2 = 1 then i + 1 else n) 0

/-- The helper `sovGenerated` of the generated protobuf code of `k8s.io/apimachinery`: the
length in bytes of the varint encoding of a 64-bit word. -/
def sovGenerated (x : Nat) : Nat :=
  (bitsLen64 (x ||| 1) + 6) / 7

/-- The method `(*metav1.Duration).Size()`, which `k8s.io/apimachinery` generates for the
protobuf encoding: `0` on a nil receiver, otherwise one tag byte plus the varint length of
`uint64(m.Duration)`. -/
def metav1.Duration.Size : Option metav1.Duration → Nat
  | none => 0
  | some m => 1 + sovGenerated ((m.Duration % 2 ^ 64).toNat)

/-- The outcome of running a Go function body: it returns a value, or it panics. The only
panic the source can raise is the dereference of a nil pointer. -/
inductive Outcome (α : Type) where
  | panic
  | returns (a : α)

/-- The field read `p.Duration` through a pointer `p`: a nil `p` panics. -/
def metav1.Duration.deref : Option metav1.Duration → Outcome Int
  | none => .panic
  | some m => .returns m.Duration

/-! ## Package `targetallocator` -/

namespace targetallocator

/-- The constant `targetAllocatorFilename`. -/
def targetAllocatorFilename : String := "targetallocator.yaml"

/-- The constant `ComponentOpenTelemetryTargetAllocator`, declared outside the two source files;
`TestDesiredConfigMap` expects it as the component label. -/
def ComponentOpenTelemetryTargetAllocator : String := "opentelemetry-targetallocator"

/-- The constant `collector.ComponentOpenTelemetryCollector`, declared outside the two
source files; `TestDesiredConfigMap` expects it as the component label of the selector. -/
def ComponentOpenTelemetryCollector : String := "opentelemetry-collector"

/-- The parameters of `ConfigMap`: the fields of `Params` that it reads. -/
structure Params where
  Collector : Option v1beta1.OpenTelemetryCollector := none
  TargetAllocator : v1beta1.TargetAllocator := {}

/-- The loop of `getScrapeConfigs` (lines 124 to 136): each extracted entry is marshalled
and unmarshalled into a `map[string]any`, in order; the first error ends the loop and is
returned with a nil list. -/
def getScrapeConfigs.loop (Y : Yaml) : List Value → Except Error (List AnyConfig)
  | [] => .ok []
  | config :: rest =>
    match Y.Marshal config with
    | .error err => .error err
    | .ok marshaled =>
      match Y.UnmarshalStringMap marshaled with
      | .error err => .error err
      | .ok newConfig =>
        match getScrapeConfigs.loop Y rest with
        | .error err => .error err
        | .ok tail => .ok (AnyConfig.mk newConfig :: tail)

/-- The function `getScrapeConfigs` of `configmap.go`. -/
def getScrapeConfigs (Y : Yaml) (A : Adapters) (otelcolConfig : String) :
    Except Error (List AnyConfig) :=
  match A.UnescapeDollarSignsInPromConfig otelcolConfig with
  | .error err => .error err
  | .ok prometheusReceiverConfig =>
    match A.GetScrapeConfigsFromPromConfig prometheusReceiverConfig with
    | .error err => .error err
    | .ok scrapeConfigs => getScrapeConfigs.loop Y scrapeConfigs

/-- The scrape configs `ConfigMap` collects (lines 47 to 62): the explicit list of the spec,
then the list extracted from the collector, when one is given. An error here makes
`ConfigMap` return `nil` and that error. -/
def scrapeConfigs (E : Env) (params : Params) : Except Error (List AnyConfig) :=
  let inst := params.TargetAllocator
  let scrapeConfigs : List AnyConfig := []
  let scrapeConfigs :=
    match inst.Spec.ScrapeConfigs with
    | some l => if l.length > 0 then scrapeConfigs ++ l else scrapeConfigs
    | none => scrapeConfigs
  match params.Collector with
  | some c =>
    match E.ConfigYaml c.Spec.Config with
    | .error err => .error err
    | .ok collectorConfigStr =>
      match getScrapeConfigs E.yaml E.adapters collectorConfigStr with
      | .error err => .error err
      | .ok collectorScrapeConfigs => .ok (scrapeConfigs ++ collectorScrapeConfigs)
  | none => .ok scrapeConfigs

/-- The block `prometheusCRConfig` of `ConfigMap` (lines 77 to 86). -/
def prometheusCRConfig (taSpec : v1beta1.TargetAllocatorSpec) : Outcome (List (Value × Value)) :=
  let prometheusCRConfig := MapAny.set [] "enabled" (.bool true)
  let withInterval : Outcome (List (Value × Value)) :=
    if metav1.Duration.Size taSpec.PrometheusCR.ScrapeInterval > 0 then
      match metav1.Duration.deref taSpec.PrometheusCR.ScrapeInterval with
      | .panic => .panic
      | .returns d => .returns (MapAny.set prometheusCRConfig "scrape_interval" (.duration d))
    else .returns prometheusCRConfig
  match withInterval with
  | .panic => .panic
  | .returns prometheusCRConfig =>
    let prometheusCRConfig := MapAny.set prometheusCRConfig "service_monitor_selector"
      (.labelSelectorPtr taSpec.PrometheusCR.ServiceMonitorSelector)
    let prometheusCRConfig := MapAny.set prometheusCRConfig "pod_monitor_selector"
      (.labelSelectorPtr taSpec.PrometheusCR.PodMonitorSelector)
    .returns prometheusCRConfig

/-- The document `taConfig` that `ConfigMap` builds (lines 39 to 89) and hands to
`yaml.Marshal`. An `error` is an early `return nil, err`. -/
def taConfig (E : Env) (params : Params) : Outcome (Except Error Value) :=
  let inst := params.TargetAllocator
  let taSpec := inst.Spec
  let taConfig : List (Value × Value) := []
  let taConfig :=
    match params.Collector with
    | some c => MapAny.set taConfig "collector_selector"
        (.labelSelector
          { MatchLabels := E.SelectorLabels c.ObjectMeta ComponentOpenTelemetryCollector })
    | none => taConfig
  match scrapeConfigs E params with
  | .error err => .returns (.error err)
  | .ok scrapeConfigs =>
    let taConfig :=
      if scrapeConfigs.length > 0 then
        MapAny.set taConfig "config" (.mapStr [("scrape_configs", .anyConfigs scrapeConfigs)])
      else taConfig
    let taConfig :=
      if taSpec.AllocationStrategy.length > 0 then
        MapAny.set taConfig "allocation_strategy" (.str taSpec.AllocationStrategy)
      else
        MapAny.set taConfig "allocation_strategy"
          (.str v1beta1.TargetAllocatorAllocationStrategyConsistentHashing)
    let taConfig := MapAny.set taConfig "filter_strategy" (.str taSpec.FilterStrategy)
    if taSpec.PrometheusCR.Enabled then
      match prometheusCRConfig taSpec with
      | .panic => .panic
      | .returns prometheusCRConfig =>
        .returns (.ok (.mapAny (MapAny.set taConfig "prometheus_cr" (.mapAny prometheusCRConfig))))
    else .returns (.ok (.mapAny taConfig))

/-- The function `ConfigMap` of `configmap.go`. What it returns is the pair of the pointer
(`none` is nil) and the error (`none` is nil). -/
def ConfigMap (E : Env) (params : Params) : Outcome (Option corev1.ConfigMap × Option Error) :=
  let inst := params.TargetAllocator
  let name := E.TAConfigMap inst.ObjectMeta.Name
  let labels := E.Labels inst.ObjectMeta name params.TargetAllocator.Spec.Image
    ComponentOpenTelemetryTargetAllocator
  match taConfig E params with
  | .panic => .panic
  | .returns (.error err) => .returns (none, some err)
  | .returns (.ok taConfig) =>
    match E.yaml.Marshal taConfig with
    | .error err => .returns (some {}, some err)
    | .ok taConfigYAML =>
      .returns
        (some
          { ObjectMeta :=
              { Name := name
                Namespace := inst.ObjectMeta.Namespace
                Labels := labels
                Annotations := inst.ObjectMeta.Annotations }
            Data := [(targetAllocatorFilename, taConfigYAML)] },
         none)

end targetallocator

/-! ## Package `collector` -/

namespace v1alpha1

/-- The fields of `v1alpha1.OpenTelemetryTargetAllocatorPrometheusCR`: the selectors are
free-form label maps. -/
structure OpenTelemetryTargetAllocatorPrometheusCR where
  Enabled : Bool := false
  ScrapeInterval : Option metav1.Duration := none
  PodMonitorSelector : StringMap := none
  ServiceMonitorSelector : StringMap := none
deriving DecidableEq, Repr

end v1alpha1

namespace v1alpha2

/-- The fields of `v1alpha2.TargetAllocatorPrometheusCR`: the selectors are pointers to
label selectors. -/
structure TargetAllocatorPrometheusCR where
  Enabled : Bool := false
  ScrapeInterval : Option metav1.Duration := none
  PodMonitorSelector : Option metav1.LabelSelector := none
  ServiceMonitorSelector : Option metav1.LabelSelector := none
deriving DecidableEq, Repr

end v1alpha2

namespace collector

/-- The function `TargetAllocatorPrometheusCR` of `collector/targetallocator.go`. -/
def TargetAllocatorPrometheusCR (promCR : v1alpha1.OpenTelemetryTargetAllocatorPrometheusCR) :
    v1alpha2.TargetAllocatorPrometheusCR :=
  let v2promCR : v1alpha2.TargetAllocatorPrometheusCR :=
    { Enabled := promCR.Enabled
      ScrapeInterval := promCR.ScrapeInterval }
  let v2promCR :=
    if promCR.ServiceMonitorSelector ≠ none then
      { v2promCR with
        ServiceMonitorSelector := some { MatchLabels := promCR.ServiceMonitorSelector } }
    else v2promCR
  let v2promCR :=
    if promCR.PodMonitorSelector ≠ none then
      { v2promCR with
        PodMonitorSelector := some { MatchLabels := promCR.PodMonitorSelector } }
    else v2promCR
  v2promCR

end collector

namespace corev1

/-- A value of one of the Kubernetes API types that the source copies from one resource to
the other without reading it (resource requirements, security contexts, affinity,
tolerations, topology spread constraints, environment variables); it is identified by a
label. -/
structure PassThrough where
  label : String
deriving DecidableEq, Repr

end corev1

namespace v1alpha1

/-- The fields of `v1alpha1.OpenTelemetryTargetAllocator`, the allocator section of the
old-schema collector spec, that `TargetAllocator` reads. -/
structure OpenTelemetryTargetAllocator where
  Enabled : Bool := false
  Replicas : Option Int := none
  NodeSelector : StringMap := none
  Resources : corev1.PassThrough := ⟨""⟩
  ServiceAccount : String := ""
  SecurityContext : Option corev1.PassThrough := none
  PodSecurityContext : Option corev1.PassThrough := none
  Image : String := ""
  Affinity : Option corev1.PassThrough := none
  TopologySpreadConstraints : List corev1.PassThrough := []
  Tolerations : List corev1.PassThrough := []
  Env : List corev1.PassThrough := []
  AllocationStrategy : String := ""
  FilterStrategy : String := ""
  PrometheusCR : OpenTelemetryTargetAllocatorPrometheusCR := {}
deriving DecidableEq, Repr

/-- The fields of the old-schema collector spec that `TargetAllocator` reads; `Config` is
the raw configuration text. -/
structure OpenTelemetryCollectorSpec where
  TargetAllocator : OpenTelemetryTargetAllocator := {}
  Config : String := ""
  PodAnnotations : StringMap := none
deriving DecidableEq, Repr

/-- The old-schema collector resource `params.OtelCol`. -/
structure OpenTelemetryCollector where
  ObjectMeta : metav1.ObjectMeta := {}
  Spec : OpenTelemetryCollectorSpec := {}
deriving DecidableEq, Repr

end v1alpha1

namespace v1alpha2

/-- The type `v1alpha2.ScrapeConfig`, declared outside the two source files: the source
assigns an extracted entry to it as it is, so it is the same value under another type name. -/
abbrev ScrapeConfig := Value

/-- The fields of `v1alpha2.OpenTelemetryCommonFields` that `TargetAllocator` sets. -/
structure OpenTelemetryCommonFields where
  Replicas : Option Int := none
  NodeSelector : StringMap := none
  Resources : corev1.PassThrough := ⟨""⟩
  ServiceAccount : String := ""
  SecurityContext : Option corev1.PassThrough := none
  PodSecurityContext : Option corev1.PassThrough := none
  Image : String := ""
  Affinity : Option corev1.PassThrough := none
  TopologySpreadConstraints : List corev1.PassThrough := []
  Tolerations : List corev1.PassThrough := []
  Env : List corev1.PassThrough := []
  PodAnnotations : StringMap := none
deriving DecidableEq, Repr

/-- The fields of `v1alpha2.TargetAllocatorSpec` that `TargetAllocator` sets. -/
structure TargetAllocatorSpec where
  OpenTelemetryCommonFields : OpenTelemetryCommonFields := {}
  CollectorSelector : metav1.LabelSelector := {}
  AllocationStrategy : String := ""
  FilterStrategy : String := ""
  ScrapeConfigs : List ScrapeConfig := []
  PrometheusCR : TargetAllocatorPrometheusCR := {}

/-- The new-schema allocator resource that `TargetAllocator` builds. -/
structure TargetAllocator where
  ObjectMeta : metav1.ObjectMeta := {}
  Spec : TargetAllocatorSpec := {}

end v1alpha2

namespace collector

/-- The parameters of `TargetAllocator`: the field of `manifests.Params` that it reads. -/
structure Params where
  OtelCol : v1alpha1.OpenTelemetryCollector := {}

/-- The loop of `getScrapeConfigs` in `collector/targetallocator.go` (lines 106 to 110):
each extracted entry is assigned to the result as it is. -/
def getScrapeConfigs.loop : List Value → List v1alpha2.ScrapeConfig
  | [] => []
  | config :: rest => config :: getScrapeConfigs.loop rest

/-- The function `getScrapeConfigs` of `collector/targetallocator.go`. -/
def getScrapeConfigs (A : Adapters) (otelcolConfig : String) :
    Except Error (List v1alpha2.ScrapeConfig) :=
  match A.UnescapeDollarSignsInPromConfig otelcolConfig with
  | .error err => .error err
  | .ok prometheusReceiverConfig =>
    match A.GetScrapeConfigsFromPromConfig prometheusReceiverConfig with
    | .error err => .error err
    | .ok scrapeConfigs => .ok (getScrapeConfigs.loop scrapeConfigs)

/-- The function `TargetAllocator` of `collector/targetallocator.go`. What it returns is the
pair of the pointer (`none` is nil) and the error (`none` is nil). Of the environment it
uses the package `adapters` and `manifestutils.SelectorLabels`. -/
def TargetAllocator (E : Env) (params : Params) :
    Option v1alpha2.TargetAllocator × Option Error :=
  let taSpec := params.OtelCol.Spec.TargetAllocator
  if !taSpec.Enabled then (none, none)
  else
    let name := params.OtelCol.ObjectMeta.Name
    let collectorSelector : metav1.LabelSelector :=
      { MatchLabels := E.SelectorLabels params.OtelCol.ObjectMeta
          targetallocator.ComponentOpenTelemetryCollector }
    match getScrapeConfigs E.adapters params.OtelCol.Spec.Config with
    | .error err => (none, some err)
    | .ok scrapeConfigs =>
      (some
        { ObjectMeta :=
            { Name := name
              Namespace := params.OtelCol.ObjectMeta.Namespace
              Annotations := params.OtelCol.ObjectMeta.Annotations
              Labels := params.OtelCol.ObjectMeta.Labels }
          Spec :=
            { OpenTelemetryCommonFields :=
                { Replicas := taSpec.Replicas
                  NodeSelector := taSpec.NodeSelector
                  Resources := taSpec.Resources
                  ServiceAccount := taSpec.ServiceAccount
                  SecurityContext := taSpec.SecurityContext
                  PodSecurityContext := taSpec.PodSecurityContext
                  Image := taSpec.Image
                  Affinity := taSpec.Affinity
                  TopologySpreadConstraints := taSpec.TopologySpreadConstraints
                  Tolerations := taSpec.Tolerations
                  Env := taSpec.Env
                  PodAnnotations := params.OtelCol.Spec.PodAnnotations }
              CollectorSelector := collectorSelector
              AllocationStrategy := taSpec.AllocationStrategy
              FilterStrategy := taSpec.FilterStrategy
              ScrapeConfigs := scrapeConfigs
              PrometheusCR := TargetAllocatorPrometheusCR taSpec.PrometheusCR } },
       none)

end collector

/-! ## Package `adapters`, from the specification

The package `internal/manifests/targetallocator/adapters` lies outside the two source
files. The two functions the source calls are modelled here from sections 4.1, 4.2 and 4.4
of the specification. -/

namespace adapters

/-- Modelled from the spec: the Escape Normalizer (section 4.1) on the characters of a text.
The function `UnescapeDollarSignsInPromConfig` is missing from the sources; the spec
describes it as pure text rewriting that replaces every `$$`, matched from the left without
overlap, by a single `$` and alters no other character. -/
def unescape : List Char → List Char
  | '$' :: '$' :: rest => '$' :: unescape rest
  | c :: rest => c :: unescape rest
  | [] => []

/-- Modelled from the spec: `UnescapeDollarSignsInPromConfig`, missing from the sources, is
the Escape Normalizer of section 4.1 applied to the whole text; it has no error condition. -/
def UnescapeDollarSignsInPromConfig (cfg : String) : Except Error String :=
  .ok (String.mk (unescape cfg.data))

/-- Modelled from the spec: the single enumerable error of section 6,
`no scrape_configs available as part of the configuration`, declared in the missing package. -/
def errorNoScrapeConfigs : Error :=
  ⟨"no scrape_configs available as part of the configuration"⟩

/-- Modelled from the spec: the fixed extraction path of sections 4.2 and 6. -/
def scrapeConfigsPath : List String :=
  ["receivers", "prometheus", "config", "scrape_configs"]

/-- Modelled from the spec: the Document Navigator `find` (section 4.2), missing from the
sources. It walks the document one key at a time; the current value must be a mapping that
has the key, and the value at the end of the path must be a sequence; any other situation
is the single not-found error. -/
def find : Value → List String → Except Error (List Value)
  | .seq xs, [] => .ok xs
  | _, [] => .error errorNoScrapeConfigs
  | v, k :: ks =>
    match v.get? k with
    | some child => find child ks
    | none => .error errorNoScrapeConfigs

/-- Modelled from the spec: `GetScrapeConfigsFromPromConfig`, missing from the sources, is
the middle of the pipeline of section 4.4: the text is parsed into a document, a parse
failure being surfaced as it is, and the navigator is run on the fixed path. -/
def GetScrapeConfigsFromPromConfig (Y : Yaml) (cfg : String) : Except Error (List Value) :=
  match Y.Unmarshal cfg with
  | .error err => .error err
  | .ok document => find document scrapeConfigsPath

/-- The package `adapters` as the specification describes it, over a YAML library. -/
def fromSpec (Y : Yaml) : Adapters where
  UnescapeDollarSignsInPromConfig := UnescapeDollarSignsInPromConfig
  GetScrapeConfigsFromPromConfig := GetScrapeConfigsFromPromConfig Y

end adapters

/-! ## A reference YAML library

An executable instance of `Yaml`, used to run the functions above on concrete inputs. It
reads and writes the flow style of YAML with double-quoted strings and string keys (the
JSON subset); texts and values outside this fragment are errors. In decoding it follows
`gopkg.in/yaml.v2`: a mapping decoded into an `interface{}` becomes a
`map[interface{}]interface{}`, and decoding into a `map[string]any` gives string keys to the
outermost mapping only, as the expected values of `TestGetScrapeConfigs` show. -/

namespace refYaml

/-- The double quote. -/
def quote : Char := Char.ofNat 34

/-- The backslash. -/
def backslash : Char := Char.ofNat 92

/-- The opening brace. -/
def lbrace : Char := Char.ofNat 123

/-- The closing brace. -/
def rbrace : Char := Char.ofNat 125

/-- The fractional digits `fmtFrac` of Go's `time` package prints for `v / 10 ^ prec`:
trailing zeros are omitted, and so is the point when nothing follows it. -/
def fmtFrac (v prec : Nat) : String :=
  let digits := (List.range prec).reverse.map fun i => Char.ofNat (48 + v / 10 ^ i % 10)
  let kept := (digits.reverse.dropWhile (· == '0')).reverse
  if kept.isEmpty then "" else String.mk ('.' :: kept)

/-- The method `(time.Duration).String()`, which `yaml.v2` uses to encode a duration. -/
def durationString (d : Int) : String :=
  let u := d.natAbs
  let body :=
    if u < 10 ^ 9 then
      if u = 0 then "0s"
      else if u < 10 ^ 3 then toString u ++ "ns"
      else if u < 10 ^ 6 then toString (u / 10 ^ 3) ++ fmtFrac u 3 ++ "µs"
      else toString (u / 10 ^ 6) ++ fmtFrac u 6 ++ "ms"
    else
      let secs := u / 10 ^ 9
      let s := toString (secs % 60) ++ fmtFrac u 9 ++ "s"
      let m := secs / 60
      if m > 0 then
        let s := toString (m % 60) ++ "m" ++ s
        let h := m / 60
        if h > 0 then toString h ++ "h" ++ s else s
      else s
  if d < 0 then "-" ++ body else body

/-- A double-quoted string; a quote or a backslash inside it is preceded by a backslash. -/
def emitString (s : String) : List Char :=
  quote :: (s.data.flatMap fun c =>
    if c = quote ∨ c = backslash then [backslash, c] else [c]) ++ [quote]

/-- The items of a flow collection, separated by commas and closed by `close`. -/
def emitItems (close : Char) : List (List Char) → List Char
  | [] => [close]
  | [x] => x ++ [close]
  | x :: y :: rest => x ++ ',' :: emitItems close (y :: rest)

/-- A `map[string]string` as a flow mapping; the nil map is the empty mapping. -/
def emitStringMap (m : StringMap) : List Char :=
  lbrace :: emitItems rbrace ((m.getD []).map fun kv =>
    emitString kv.1 ++ ':' :: emitString kv.2)

/-- A `metav1.LabelSelectorRequirement` as a flow mapping. -/
def emitRequirement (r : metav1.LabelSelectorRequirement) : List Char :=
  lbrace :: emitItems rbrace
    [emitString "key" ++ ':' :: emitString r.Key,
     emitString "operator" ++ ':' :: emitString r.Operator,
     emitString "values" ++ ':' :: '[' :: emitItems ']' (r.Values.map emitString)]

/-- A `metav1.LabelSelector` as a flow mapping, under the lower-cased field names `yaml.v2`
gives a struct without tags. -/
def emitSelector (s : metav1.LabelSelector) : List Char :=
  lbrace :: emitItems rbrace
    [emitString "matchlabels" ++ ':' :: emitStringMap s.MatchLabels,
     emitString "matchexpressions" ++ ':' :: '[' ::
       emitItems ']' (s.MatchExpressions.map emitRequirement)]

mutual
/-- The flow-style text of a value; `none` when a mapping has a key that is not a string. -/
def emit : Value → Option (List Char)
  | .null => some "null".data
  | .bool true => some "true".data
  | .bool false => some "false".data
  | .int n => some (toString n).data
  | .str s => some (emitString s)
  | .duration d => some (emitString (durationString d))
  | .labelSelector s => some (emitSelector s)
  | .labelSelectorPtr none => some "null".data
  | .labelSelectorPtr (some s) => some (emitSelector s)
  | .seq xs => (emitSeq xs).map fun items => '[' :: emitItems ']' items
  | .mapAny kvs => (emitAny kvs).map fun items => lbrace :: emitItems rbrace items
  | .mapStr kvs => (emitStr kvs).map fun items => lbrace :: emitItems rbrace items
  | .anyConfigs xs => (emitConfigs xs).map fun items => '[' :: emitItems ']' items
/-- The texts of the elements of a sequence. -/
def emitSeq : List Value → Option (List (List Char))
  | [] => some []
  | x :: xs =>
    match emit x, emitSeq xs with
    | some t, some ts => some (t :: ts)
    | _, _ => none
/-- The texts of the entries of a `map[interface{}]interface{}`. -/
def emitAny : List (Value × Value) → Option (List (List Char))
  | [] => some []
  | (.str k, v) :: kvs =>
    match emit v, emitAny kvs with
    | some t, some ts => some ((emitString k ++ ':' :: t) :: ts)
    | _, _ => none
  | _ :: _ => none
/-- The texts of the entries of a `map[string]interface{}`. -/
def emitStr : List (String × Value) → Option (List (List Char))
  | [] => some []
  | (k, v) :: kvs =>
    match emit v, emitStr kvs with
    | some t, some ts => some ((emitString k ++ ':' :: t) :: ts)
    | _, _ => none
/-- The texts of the elements of a `[]v1beta1.AnyConfig`, each the mapping it wraps. -/
def emitConfigs : List AnyConfig → Option (List (List Char))
  | [] => some []
  | .mk o :: xs =>
    match emitStr o, emitConfigs xs with
    | some items, some ts => some ((lbrace :: emitItems rbrace items) :: ts)
    | _, _ => none
end

/-- The body of a double-quoted string, read after the opening quote. -/
def readString : List Char → List Char → Option (String × List Char)
  | [], _ => none
  | c :: rest, acc =>
    if c = quote then some (String.mk acc.reverse, rest)
    else if c = backslash then
      match rest with
      | [] => none
      | d :: rest' => readString rest' (d :: acc)
    else readString rest (c :: acc)

/-- A run of decimal digits. -/
def readDigits : List Char → Nat → Nat × List Char
  | [], n => (n, [])
  | c :: rest, n =>
    if c.isDigit then readDigits rest (10 * n + (c.toNat - 48)) else (n, c :: rest)

mutual
/-- A value read from the front of a text, with the rest of the text. Mappings are read as
`map[interface{}]interface{}`; a repeated key keeps its last value. -/
def parse : Nat → List Char → Option (Value × List Char)
  | 0, _ => none
  | fuel + 1, cs =>
    match cs with
    | [] => none
    | 'n' :: 'u' :: 'l' :: 'l' :: rest => some (.null, rest)
    | 't' :: 'r' :: 'u' :: 'e' :: rest => some (.bool true, rest)
    | 'f' :: 'a' :: 'l' :: 's' :: 'e' :: rest => some (.bool false, rest)
    | '[' :: ']' :: rest => some (.seq [], rest)
    | '[' :: rest =>
      match parseSeq fuel rest with
      | some (xs, rest') => some (.seq xs, rest')
      | none => none
    | '-' :: c :: rest =>
      if c.isDigit then
        let r := readDigits (c :: rest) 0
        some (.int (- (r.1 : Int)), r.2)
      else none
    | c :: rest =>
      if c = quote then
        match readString rest [] with
        | some (s, rest') => some (.str s, rest')
        | none => none
      else if c = lbrace then
        match rest with
        | d :: rest' =>
          if d = rbrace then some (.mapAny [], rest')
          else
            match parseMap fuel rest [] with
            | some (kvs, rest'') => some (.mapAny kvs, rest'')
            | none => none
        | [] => none
      else if c.isDigit then
        let r := readDigits (c :: rest) 0
        some (.int (r.1 : Int), r.2)
      else none
/-- The elements of a sequence, read after the opening bracket. -/
def parseSeq : Nat → List Char → Option (List Value × List Char)
  | 0, _ => none
  | fuel + 1, cs =>
    match parse fuel cs with
    | some (v, ',' :: rest) =>
      match parseSeq fuel rest with
      | some (vs, rest') => some (v :: vs, rest')
      | none => none
    | some (v, ']' :: rest) => some ([v], rest)
    | _ => none
/-- The entries of a mapping, read after the opening brace and added to `acc`. -/
def parseMap : Nat → List Char → List (Value × Value) →
    Option (List (Value × Value) × List Char)
  | 0, _, _ => none
  | fuel + 1, cs, acc =>
    match parse fuel cs with
    | some (.str k, ':' :: rest) =>
      match parse fuel rest with
      | some (v, c :: rest') =>
        if c = ',' then parseMap fuel rest' (MapAny.set acc k v)
        else if c = rbrace then some (MapAny.set acc k v, rest')
        else none
      | _ => none
    | _ => none
end

/-- The error of the reference library on a text or value outside its fragment. -/
def unsupported : Error := ⟨"yaml: unsupported"⟩

/-- The function `yaml.Marshal`. -/
def Marshal (v : Value) : Except Error String :=
  match emit v with
  | some cs => .ok (String.mk cs)
  | none => .error unsupported

/-- The function `yaml.Unmarshal` into an `interface{}`. -/
def Unmarshal (text : String) : Except Error Value :=
  match parse (text.length + 1) text.data with
  | some (v, []) => .ok v
  | _ => .error unsupported

/-- The outermost mapping of a decoded document with its keys as strings, the values as
they were decoded. -/
def stringKeys : List (Value × Value) → Option (List (String × Value))
  | [] => some []
  | (.str k, v) :: kvs => (stringKeys kvs).map fun rest => (k, v) :: rest
  | _ :: _ => none

/-- The function `yaml.Unmarshal` into a nil `map[string]any`: a null document leaves the
map as it is, a mapping fills it, anything else is an error. -/
def UnmarshalStringMap (text : String) : Except Error (List (String × Value)) :=
  match Unmarshal text with
  | .error err => .error err
  | .ok .null => .ok []
  | .ok (.mapAny kvs) =>
    match stringKeys kvs with
    | some m => .ok m
    | none => .error unsupported
  | .ok _ => .error ⟨"yaml: unmarshal errors: cannot unmarshal into map[string]interface {}"⟩

end refYaml

/-- The reference YAML library. -/
def refYaml.lib : Yaml where
  Marshal := refYaml.Marshal
  Unmarshal := refYaml.Unmarshal
  UnmarshalStringMap := refYaml.UnmarshalStringMap

/-- The labels every object of the operator carries, as `TestDesiredConfigMap` expects them
in the selector. -/
def refSelectorLabels (meta : metav1.ObjectMeta) (component : String) : StringMap :=
  some
    [("app.kubernetes.io/component", component),
     ("app.kubernetes.io/instance", meta.Namespace ++ "." ++ meta.Name),
     ("app.kubernetes.io/managed-by", "opentelemetry-operator"),
     ("app.kubernetes.io/part-of", "opentelemetry")]

/-- A reference environment: the reference YAML library, the package `adapters` as the
specification describes it, a configuration whose text is its `receivers` section, and the
names and labels `TestDesiredConfigMap` expects. -/
def refEnv : Env where
  yaml := refYaml.lib
  adapters := adapters.fromSpec refYaml.lib
  ConfigYaml := fun cfg => refYaml.Marshal (.mapStr [("receivers", .mapStr cfg.Receivers.Object)])
  TAConfigMap := fun name => name ++ "-targetallocator"
  Labels := fun meta name _ component =>
    (refSelectorLabels meta component).map fun l => l ++ [("app.kubernetes.io/name", name)]
  SelectorLabels := refSelectorLabels

/-! ## Vocabulary of the statements -/

/-- Whether a value is a mapping with an entry under the string key `k`. -/
def Value.hasKey (v : Value) (k : String) : Bool :=
  (v.get? k).isSome

/-- The value a path of keys leads to in a document, when every step finds a mapping with
the key. -/
def Value.at? : Value → List String → Option Value
  | v, [] => some v
  | v, k :: ks =>
    match v.get? k with
    | some child => Value.at? child ks
    | none => none

namespace targetallocator

/-- The explicit scrape-config list of the allocator spec; the nil slice is the empty list. -/
def explicitScrapeConfigs (params : Params) : List AnyConfig :=
  params.TargetAllocator.Spec.ScrapeConfigs.getD []

/-- The list `getScrapeConfigs` extracts from the agent configuration: the empty list when
no agent is supplied, otherwise its result on the text of the agent's configuration. -/
def extractedScrapeConfigs (E : Env) (params : Params) : Except Error (List AnyConfig) :=
  match params.Collector with
  | none => .ok []
  | some c =>
    match E.ConfigYaml c.Spec.Config with
    | .error err => .error err
    | .ok collectorConfigStr => getScrapeConfigs E.yaml E.adapters collectorConfigStr

/-- The document `doc` is the one a successful call of `ConfigMap` synthesized into `cm`:
it is the `taConfig` of the call, and the only entry of `cm.Data`, under
`targetallocator.yaml`, is its serialization. -/
def Synthesized (E : Env) (params : Params) (cm : corev1.ConfigMap) (doc : Value) : Prop :=
  taConfig E params = .returns (.ok doc) ∧
    ∃ text, E.yaml.Marshal doc = .ok text ∧ cm.Data = [(targetAllocatorFilename, text)]

end targetallocator

/-! ## Concrete inputs

The resources of `TestDesiredConfigMap` and `TestGetScrapeConfigs`, on which the statements
below are instantiated. -/

namespace Example

/-- The scrape job of the collector of `TestDesiredConfigMap`. -/
def job : Value :=
  .mapStr
    [("job_name", .str "otel-collector"),
     ("scrape_interval", .str "10s"),
     ("static_configs", .seq [.mapStr [("targets", .seq [.str "0.0.0.0:8888", .str "0.0.0.0:9999"])]])]

/-- A collector configuration whose `receivers` section holds the given scrape configs under
`prometheus.config.scrape_configs`. -/
def agentConfig (scrapeConfigs : List Value) : v1beta1.Config :=
  ⟨.mk [("prometheus", .mapStr [("config", .mapStr [("scrape_configs", .seq scrapeConfigs)])])]⟩

/-- A collector named `my-instance` in the namespace `default`. -/
def collector (config : v1beta1.Config) : v1beta1.OpenTelemetryCollector :=
  { ObjectMeta := { Name := "my-instance", Namespace := "default" }, Spec := ⟨config⟩ }

/-- An allocator named `my-instance` in the namespace `default` with the given spec. -/
def targetAllocator (spec : v1beta1.TargetAllocatorSpec) : v1beta1.TargetAllocator :=
  { ObjectMeta := { Name := "my-instance", Namespace := "default" }, Spec := spec }

/-- An explicit scrape config of the allocator spec. -/
def explicitJob : AnyConfig :=
  .mk [("job_name", .str "explicit")]

/-- The job of `TestDesiredConfigMap` as `getScrapeConfigs` returns it. -/
def extractedJob : AnyConfig :=
  .mk
    [("job_name", .str "otel-collector"),
     ("scrape_interval", .str "10s"),
     ("static_configs",
       .seq [.mapAny [(.str "targets", .seq [.str "0.0.0.0:8888", .str "0.0.0.0:9999"])]])]

/-- A call with an agent that has one scrape job and a spec with one explicit scrape
config, discovery enabled and a scrape interval of thirty seconds. -/
def params : targetallocator.Params :=
  { Collector := some (collector (agentConfig [job]))
    TargetAllocator := targetAllocator
      { ScrapeConfigs := some [explicitJob]
        FilterStrategy := "relabel-config"
        PrometheusCR := { Enabled := true, ScrapeInterval := some ⟨30000000000⟩ } } }

/-- A call with no explicit scrape configs and an agent whose `scrape_configs` is empty. -/
def paramsNoScrapeConfigs : targetallocator.Params :=
  { Collector := some (collector (agentConfig []))
    TargetAllocator := targetAllocator
      { ScrapeConfigs := some [], FilterStrategy := "relabel-config" } }

/-- A call with discovery enabled and a scrape interval of zero. -/
def paramsZeroInterval : targetallocator.Params :=
  { TargetAllocator := targetAllocator
      { PrometheusCR := { Enabled := true, ScrapeInterval := some ⟨0⟩ } } }

/-- An agent configuration in which `config` has no `scrape_configs` key. -/
def agentConfigNoKey : v1beta1.Config :=
  ⟨.mk [("prometheus", .mapStr [("config", .mapStr [])])]⟩

/-- The config map a call returns in the reference environment, the empty one when the call
does not return one. -/
def returned (params : targetallocator.Params) : corev1.ConfigMap :=
  match targetallocator.ConfigMap refEnv params with
  | .returns (some cm, _) => cm
  | _ => {}

end Example

/-! ## Vocabulary of the statements on extraction -/

/-- The Escape Normalizer on a text. -/
def adapters.unescapeText (text : String) : String :=
  String.mk (adapters.unescape text.data)

/-- The package `adapters` of the specification with the Escape Normalizer left out: the
text is parsed and navigated as it stands. -/
def adapters.withoutUnescape (Y : Yaml) : Adapters where
  UnescapeDollarSignsInPromConfig := fun cfg => .ok cfg
  GetScrapeConfigsFromPromConfig := adapters.GetScrapeConfigsFromPromConfig Y

mutual
/-- Whether every mapping inside a value, at every depth, is keyed by text, that is, is a
`map[string]interface{}` and not a `map[interface{}]interface{}`. -/
def Value.textKeyed : Value → Bool
  | .seq xs => Value.textKeyedList xs
  | .mapAny _ => false
  | .mapStr kvs => Value.textKeyedEntries kvs
  | .anyConfigs xs => Value.textKeyedConfigs xs
  | _ => true
/-- Whether every element of a sequence is text-keyed at every depth. -/
def Value.textKeyedList : List Value → Bool
  | [] => true
  | x :: xs => x.textKeyed && Value.textKeyedList xs
/-- Whether every value of a text-keyed mapping is text-keyed at every depth. -/
def Value.textKeyedEntries : List (String × Value) → Bool
  | [] => true
  | (_, v) :: kvs => v.textKeyed && Value.textKeyedEntries kvs
/-- Whether every entry of a list of configs is text-keyed at every depth. -/
def Value.textKeyedConfigs : List AnyConfig → Bool
  | [] => true
  | .mk o :: xs => Value.textKeyedEntries o && Value.textKeyedConfigs xs
end

/-- Whether an entry is text-keyed at every depth. -/
def AnyConfig.textKeyed (c : AnyConfig) : Bool :=
  Value.textKeyedEntries c.Object

namespace Example

/-- The text of a collector configuration in the reference environment, empty when the
configuration has none. -/
def configText (config : v1beta1.Config) : String :=
  match refEnv.ConfigYaml config with
  | .ok text => text
  | .error _ => ""

/-- The document the reference library reads from the text of `agentConfig scrapeConfigs`
when the scrape configs are already generic values. -/
def agentDocument (configValue : Value) : Value :=
  .mapAny [(.str "receivers", .mapAny [(.str "prometheus", .mapAny [(.str "config", configValue)])])]

/-- The scrape job of the case `regex substitution` of `TestGetScrapeConfigs`, with the
given `replacement`. -/
def regexJob (replacement : String) : Value :=
  .mapStr
    [("job", .str "somejob"),
     ("metric_relabel_configs",
       .seq [.mapStr [("action", .str "labelmap"), ("regex", .str "label_(.+)"),
         ("replacement", .str replacement)]])]

/-- The entry `TestGetScrapeConfigs` expects for the case `regex substitution`. -/
def regexEntry : AnyConfig :=
  .mk
    [("job", .str "somejob"),
     ("metric_relabel_configs",
       .seq [.mapAny [(.str "action", .str "labelmap"), (.str "regex", .str "label_(.+)"),
         (.str "replacement", .str "$1")]])]

/-- The text of the case `regex substitution`, in which the replacement is `$$1`. -/
def regexText : String :=
  configText (agentConfig [regexJob "$$1"])

/-- The text of the case `regex substitution` before its first dollar sign. -/
def regexBefore : String :=
  String.mk (regexText.data.takeWhile (· != '$'))

/-- The text of the case `regex substitution` after the replacement `$$1`. -/
def regexAfter : String :=
  String.mk ((regexText.data.dropWhile (· != '$')).drop 3)

/-- The scrape job of the case `one scrape config` of `TestGetScrapeConfigs`. -/
def relabelJob : Value :=
  .mapStr
    [("job_name", .str "otel-collector"),
     ("relabel_configs",
       .seq
         [.mapStr [("action", .str "labelmap"), ("regex", .str "__meta_kubernetes_node_label_(.+)")],
          .mapStr [("action", .str "labeldrop"), ("replacement", .str "$1")],
          .mapStr [("action", .str "labelkeep"), ("regex", .str "metrica_*|metricb.*"),
            ("replacement", .str "$1")]]),
     ("scrape_interval", .str "10s"),
     ("static_configs", .seq [.mapStr [("targets", .seq [.str "0.0.0.0:8888"])]])]

/-- The entry `TestGetScrapeConfigs` expects for the case `one scrape config`: the elements
of `relabel_configs` and `static_configs` are of type `map[any]any`. -/
def relabelEntry : AnyConfig :=
  .mk
    [("job_name", .str "otel-collector"),
     ("relabel_configs",
       .seq
         [.mapAny [(.str "action", .str "labelmap"),
            (.str "regex", .str "__meta_kubernetes_node_label_(.+)")],
          .mapAny [(.str "action", .str "labeldrop"), (.str "replacement", .str "$1")],
          .mapAny [(.str "action", .str "labelkeep"), (.str "regex", .str "metrica_*|metricb.*"),
            (.str "replacement", .str "$1")]]),
     ("scrape_interval", .str "10s"),
     ("static_configs", .seq [.mapAny [(.str "targets", .seq [.str "0.0.0.0:8888"])]])]

/-- An agent configuration without the key `config` under `prometheus`. -/
def agentConfigNoConfig : v1beta1.Config :=
  ⟨.mk [("prometheus", .mapStr [])]⟩

/-- A call whose agent configuration lacks the key `config`, while the spec has an explicit
scrape config and enables discovery. -/
def paramsNoConfig : targetallocator.Params :=
  { Collector := some (collector agentConfigNoConfig)
    TargetAllocator := targetAllocator
      { ScrapeConfigs := some [explicitJob]
        AllocationStrategy := "per-node"
        PrometheusCR := { Enabled := true } } }

end Example

/-! ## Vocabulary of the later statements -/

/-- An entry as a document: the mapping its field `Object` holds. -/
def AnyConfig.document (c : AnyConfig) : Value :=
  .mapStr c.Object

/-- Whether a value is a mapping all of whose keys are strings of the list `allowed`. -/
def Value.keysAmong (v : Value) (allowed : List String) : Prop :=
  match v with
  | .mapAny kvs => ∀ kv ∈ kvs, ∃ k ∈ allowed, kv.1 = .str k
  | .mapStr kvs => ∀ kv ∈ kvs, kv.1 ∈ allowed
  | _ => False

namespace Example

/-- The document the reference library reads for the scrape job of the case
`one scrape config` of `TestGetScrapeConfigs`: every mapping in it is of type
`map[interface{}]interface{}`. -/
def relabelDocument : Value :=
  .mapAny
    [(.str "job_name", .str "otel-collector"),
     (.str "relabel_configs",
       .seq
         [.mapAny [(.str "action", .str "labelmap"),
            (.str "regex", .str "__meta_kubernetes_node_label_(.+)")],
          .mapAny [(.str "action", .str "labeldrop"), (.str "replacement", .str "$1")],
          .mapAny [(.str "action", .str "labelkeep"), (.str "regex", .str "metrica_*|metricb.*"),
            (.str "replacement", .str "$1")]]),
     (.str "scrape_interval", .str "10s"),
     (.str "static_configs", .seq [.mapAny [(.str "targets", .seq [.str "0.0.0.0:8888"])]])]

/-- A label selector as `TestDesiredConfigMap` sets it. -/
def releaseSelector : metav1.LabelSelector :=
  { MatchLabels := some [("release", "my-instance")] }

/-- A call with discovery enabled, a service monitor selector set, and the pod monitor
selector and the scrape interval left nil. -/
def paramsSelectors : targetallocator.Params :=
  { Collector := some (collector (agentConfig [job]))
    TargetAllocator := targetAllocator
      { FilterStrategy := "relabel-config"
        PrometheusCR := { Enabled := true, ServiceMonitorSelector := some releaseSelector } } }

/-- A call without an agent and with an empty filter strategy. -/
def paramsNoAgent : targetallocator.Params :=
  { TargetAllocator := targetAllocator { ScrapeConfigs := some [explicitJob] } }

/-- An old-schema collector with the allocator enabled and the given configuration text. -/
def otelCol (enabled : Bool) (config : String) : collector.Params :=
  { OtelCol :=
      { ObjectMeta := { Name := "my-instance", Namespace := "default" }
        Spec :=
          { TargetAllocator :=
              { Enabled := enabled
                Image := "allocator:0.47.0"
                AllocationStrategy := "least-weighted"
                PrometheusCR := { Enabled := true, ServiceMonitorSelector := some [] } }
            Config := config } } }

/-- A text that the reference library does not parse. -/
def malformedText : String :=
  "receivers: [unclosed"

end Example

/-! ## Vocabulary of the statement on dollar signs -/

/-- The Escape Normalizer on one string. -/
def adapters.unescapeString (s : String) : String :=
  String.mk (adapters.unescape s.data)

mutual
/-- Whether a value is a plain configuration document: built from null, booleans, strings,
sequences and text-keyed mappings, the keys of each mapping being distinct and free of
dollar signs. -/
def Value.isPlain : Value → Bool
  | .null => true
  | .bool _ => true
  | .str _ => true
  | .seq xs => Value.isPlainList xs
  | .mapStr kvs => Value.isPlainEntries kvs
  | _ => false
/-- Whether every element of a sequence is plain. -/
def Value.isPlainList : List Value → Bool
  | [] => true
  | x :: xs => x.isPlain && Value.isPlainList xs
/-- Whether the entries of a mapping are plain: each key is free of dollar signs and is not
repeated further on, and each value is plain. -/
def Value.isPlainEntries : List (String × Value) → Bool
  | [] => true
  | (k, v) :: kvs =>
    !k.data.contains '$' && !(kvs.map Prod.fst).contains k && v.isPlain &&
      Value.isPlainEntries kvs
end

mutual
/-- A document with every string value normalized: each `$$` replaced by `$`, at the same
position of the document. -/
def Value.unescaped : Value → Value
  | .str s => .str (adapters.unescapeString s)
  | .seq xs => .seq (Value.unescapedList xs)
  | .mapStr kvs => .mapStr (Value.unescapedEntries kvs)
  | v => v
/-- The elements of a sequence, normalized. -/
def Value.unescapedList : List Value → List Value
  | [] => []
  | x :: xs => x.unescaped :: Value.unescapedList xs
/-- The entries of a mapping with their values normalized. -/
def Value.unescapedEntries : List (String × Value) → List (String × Value)
  | [] => []
  | (k, v) :: kvs => (k, v.unescaped) :: Value.unescapedEntries kvs
end

mutual
/-- A document as the decoder of `yaml.v2` types it inside an `interface{}`: every mapping
is a `map[interface{}]interface{}` with the same keys and values. -/
def Value.decoded : Value → Value
  | .seq xs => .seq (Value.decodedList xs)
  | .mapStr kvs => .mapAny (Value.decodedEntries kvs)
  | v => v
/-- The elements of a sequence, decoded. -/
def Value.decodedList : List Value → List Value
  | [] => []
  | x :: xs => x.decoded :: Value.decodedList xs
/-- The entries of a mapping, decoded. -/
def Value.decodedEntries : List (String × Value) → List (Value × Value)
  | [] => []
  | (k, v) :: kvs => (.str k, v.decoded) :: Value.decodedEntries kvs
end

/-- The entry the extractor returns for a scrape job that is a text-keyed mapping: the keys
of the job stay text, each value is normalized and typed as the decoder types it. -/
def Value.extracted : Value → AnyConfig
  | .mapStr kvs => .mk ((Value.unescapedEntries kvs).map fun kv => (kv.1, kv.2.decoded))
  | _ => .mk []

/-- The body of a double-quoted string: a quote or a backslash is preceded by a backslash. -/
def refYaml.escape (cs : List Char) : List Char :=
  cs.flatMap fun c => if c = refYaml.quote ∨ c = refYaml.backslash then [refYaml.backslash, c] else [c]

/-- The `replacement` of the relabel rule at index `i` of the list under the key `list`
(`relabel_configs` or `metric_relabel_configs`) of a scrape job. -/
def Value.replacementAt (job : Value) (list : String) (i : Nat) : Option Value :=
  match job.get? list with
  | some (.seq rules) =>
    match rules[i]? with
    | some rule => rule.get? "replacement"
    | none => none
  | _ => none

/-! ## Theorems -/

set_option maxRecDepth 1000000

/-! ## Lemmas on maps -/

theorem Value.isKey_unique {k k' : String} {v : Value} (h : v.isKey k = true)
    (h' : v.isKey k' = true) : k = k' := by
  cases v <;> simp [Value.isKey] at h h'
  rw [← h, ← h']

theorem MapAny.get?_set_self (m : List (Value × Value)) (k : String) (v : Value) :
    MapAny.get? (MapAny.set m k v) k = some v := by
  induction m with
  | nil => simp [MapAny.set, MapAny.get?, Value.isKey]
  | cons kv rest ih =>
    obtain ⟨k', v'⟩ := kv
    by_cases hk : k'.isKey k = true
    · simp [MapAny.set, MapAny.get?, hk]
    · simp [MapAny.set, MapAny.get?, hk, ih]

theorem MapAny.get?_set_of_ne (m : List (Value × Value)) {k k' : String} (hne : k ≠ k')
    (v : Value) : MapAny.get? (MapAny.set m k v) k' = MapAny.get? m k' := by
  induction m with
  | nil => simp [MapAny.set, MapAny.get?, Value.isKey, hne]
  | cons kv rest ih =>
    obtain ⟨k0, v0⟩ := kv
    by_cases hk : k0.isKey k = true
    · have hk' : ¬ k0.isKey k' = true := fun h => hne (Value.isKey_unique hk h)
      simp [MapAny.set, MapAny.get?, hk, hk']
    · by_cases hk' : k0.isKey k' = true
      · simp [MapAny.set, MapAny.get?, hk, hk']
      · simp [MapAny.set, MapAny.get?, hk, hk', ih]

theorem MapAny.get?_nil (k : String) : MapAny.get? [] k = none := rfl

namespace targetallocator

/-- What `scrapeConfigs` returns on success: the explicit list followed by the extracted
list. -/
theorem scrapeConfigs_eq (E : Env) (params : Params) :
    scrapeConfigs E params =
      match extractedScrapeConfigs E params with
      | .error err => .error err
      | .ok extracted => .ok (explicitScrapeConfigs params ++ extracted) := by
  have hexp : (match params.TargetAllocator.Spec.ScrapeConfigs with
      | some l => if l.length > 0 then ([] : List AnyConfig) ++ l else []
      | none => []) = explicitScrapeConfigs params := by
    unfold explicitScrapeConfigs
    cases h : params.TargetAllocator.Spec.ScrapeConfigs with
    | none => simp
    | some l => cases l <;> simp
  unfold scrapeConfigs extractedScrapeConfigs
  simp only [hexp]
  cases params.Collector with
  | none => simp
  | some c =>
    cases h1 : E.ConfigYaml c.Spec.Config with
    | error err => simp [h1]
    | ok s => cases h2 : getScrapeConfigs E.yaml E.adapters s <;> simp [h1, h2]

/-- A successful `ConfigMap` call has a synthesized document. -/
theorem ConfigMap_ok {E : Env} {params : Params} {cm : corev1.ConfigMap}
    (h : ConfigMap E params = .returns (some cm, none)) :
    ∃ doc, Synthesized E params cm doc := by
  unfold ConfigMap at h
  simp only at h
  cases ht : taConfig E params with
  | panic => simp [ht] at h
  | returns r =>
    cases r with
    | error err => simp [ht] at h
    | ok doc =>
      simp only [ht] at h
      cases hm : E.yaml.Marshal doc with
      | error err => simp [hm] at h
      | ok text =>
        simp only [hm] at h
        refine ⟨doc, ht, text, hm, ?_⟩
        injection h with h
        injection h with h _
        injection h with h
        rw [← h]

end targetallocator

namespace targetallocator

/-- The entries of the block `prometheusCRConfig`: it never panics, and it holds `enabled`,
both selectors, and `scrape_interval` exactly when the interval pointer is not nil. -/
theorem prometheusCRConfig_returns (taSpec : v1beta1.TargetAllocatorSpec) :
    ∃ cr, prometheusCRConfig taSpec = .returns cr ∧
      MapAny.get? cr "enabled" = some (.bool true) ∧
      MapAny.get? cr "scrape_interval" =
        taSpec.PrometheusCR.ScrapeInterval.map (fun d => Value.duration d.Duration) ∧
      MapAny.get? cr "service_monitor_selector" =
        some (.labelSelectorPtr taSpec.PrometheusCR.ServiceMonitorSelector) ∧
      MapAny.get? cr "pod_monitor_selector" =
        some (.labelSelectorPtr taSpec.PrometheusCR.PodMonitorSelector) := by
  unfold prometheusCRConfig
  cases hs : taSpec.PrometheusCR.ScrapeInterval with
  | none =>
    simp [metav1.Duration.Size, MapAny.get?_set_self, MapAny.get?_set_of_ne, MapAny.get?_nil]
  | some d =>
    simp [metav1.Duration.Size, metav1.Duration.deref, MapAny.get?_set_self,
      MapAny.get?_set_of_ne, MapAny.get?_nil]

/-- The entries of the document `taConfig` when the build returns one. -/
theorem taConfig_returns_ok {E : Env} {params : Params} {doc : Value}
    (h : taConfig E params = .returns (.ok doc)) :
    ∃ l, scrapeConfigs E params = .ok l ∧
      doc.get? "collector_selector" =
        params.Collector.map (fun c => Value.labelSelector
          { MatchLabels := E.SelectorLabels c.ObjectMeta ComponentOpenTelemetryCollector }) ∧
      doc.get? "config" =
        (if l.length > 0 then some (.mapStr [("scrape_configs", .anyConfigs l)]) else none) ∧
      doc.get? "allocation_strategy" =
        some (.str (if params.TargetAllocator.Spec.AllocationStrategy.length > 0 then
          params.TargetAllocator.Spec.AllocationStrategy
          else v1beta1.TargetAllocatorAllocationStrategyConsistentHashing)) ∧
      doc.get? "filter_strategy" = some (.str params.TargetAllocator.Spec.FilterStrategy) ∧
      ∃ cr, prometheusCRConfig params.TargetAllocator.Spec = .returns cr ∧
        doc.get? "prometheus_cr" =
          (if params.TargetAllocator.Spec.PrometheusCR.Enabled then some (.mapAny cr) else none) := by
  obtain ⟨cr, hcr, -⟩ := prometheusCRConfig_returns params.TargetAllocator.Spec
  unfold taConfig at h
  simp only at h
  cases hl : scrapeConfigs E params with
  | error err => simp [hl] at h
  | ok l =>
    refine ⟨l, rfl, ?_⟩
    simp only [hl, hcr] at h
    refine ⟨?_, ?_, ?_, ?_, cr, hcr, ?_⟩ <;>
    cases h1 : params.TargetAllocator.Spec.PrometheusCR.Enabled <;>
    by_cases h2 : l.length > 0 <;>
    by_cases h3 : params.TargetAllocator.Spec.AllocationStrategy.length > 0 <;>
    cases h4 : params.Collector <;>
    simp only [h1, h2, h3, h4, if_true, if_false, Bool.false_eq_true, Outcome.returns.injEq,
      Except.ok.injEq] at h <;>
    subst h <;>
    simp [Value.get?, MapAny.get?_set_self, MapAny.get?_set_of_ne, MapAny.get?_nil, h1, h2, h3]

end targetallocator

/-! ## Lemmas on extraction -/

namespace adapters

theorem unescape_cons_of_ne {c : Char} (hc : c ≠ '$') (rest : List Char) :
    unescape (c :: rest) = c :: unescape rest := by
  cases rest with
  | nil => simp [unescape]
  | cons d rest =>
    rw [unescape]
    intro _ h1 _
    exact absurd h1 hc

theorem unescape_dollar_cons_of_ne {c : Char} (hc : c ≠ '$') (rest : List Char) :
    unescape ('$' :: c :: rest) = '$' :: unescape (c :: rest) := by
  rw [unescape]
  intro rest' _ h
  injection h with h _
  exact absurd h hc

/-- The normalizer reads a `$$1` as `$1`, whatever stands before and after it. -/
theorem unescape_double_dollar (pre post : List Char) :
    unescape (pre ++ '$' :: '$' :: '1' :: post) = unescape pre ++ '$' :: '1' :: unescape post := by
  induction pre using unescape.induct with
  | case1 rest ih => simp [unescape, ih]
  | case2 c rest hne ih =>
    by_cases hc : c = '$'
    · subst hc
      cases rest with
      | nil =>
        simp [unescape, unescape_cons_of_ne (show '1' ≠ '$' by decide)]
      | cons d rest =>
        have hd : d ≠ '$' := fun h => hne rest rfl (by rw [h])
        rw [List.cons_append, List.cons_append, unescape_dollar_cons_of_ne hd,
          unescape_dollar_cons_of_ne hd, ← List.cons_append, ih]
        simp
    · rw [List.cons_append, unescape_cons_of_ne hc, unescape_cons_of_ne hc, ih]
      simp
  | case3 => simp [unescape, unescape_cons_of_ne (show '1' ≠ '$' by decide)]

/-- After a text that does not end in a dollar sign, the normalizer starts afresh. -/
theorem unescape_append (pre post : List Char) (hpre : pre.getLast? ≠ some '$') :
    unescape (pre ++ post) = unescape pre ++ unescape post := by
  induction pre using unescape.induct with
  | case1 rest ih =>
    cases rest with
    | nil => simp at hpre
    | cons d rest =>
      have hlast : (d :: rest).getLast? ≠ some '$' := by
        simpa [List.getLast?_cons_cons] using hpre
      have hrest := ih hlast
      simp only [List.cons_append] at hrest ⊢
      simp [unescape, hrest]
  | case2 c rest hne ih =>
    cases rest with
    | nil =>
      have hc : c ≠ '$' := by simpa using hpre
      simp [unescape_cons_of_ne hc, unescape]
    | cons d rest =>
      have hlast : (d :: rest).getLast? ≠ some '$' := by
        simpa [List.getLast?_cons_cons] using hpre
      by_cases hc : c = '$'
      · subst hc
        have hd : d ≠ '$' := fun h => hne rest rfl (by rw [h])
        rw [List.cons_append, List.cons_append, unescape_dollar_cons_of_ne hd,
          unescape_dollar_cons_of_ne hd, ← List.cons_append, ih hlast]
        simp
      · rw [List.cons_append, unescape_cons_of_ne hc, unescape_cons_of_ne hc, ih hlast]
        simp
  | case3 => simp [unescape]

/-- The navigator returns the sequence the path leads to, and the not-found error when the
path does not lead to a sequence. -/
theorem find_eq (document : Value) (path : List String) :
    find document path =
      match document.at? path with
      | some (.seq xs) => .ok xs
      | _ => .error errorNoScrapeConfigs := by
  induction path generalizing document with
  | nil => cases document <;> simp [find, Value.at?]
  | cons k ks ih =>
    cases h : document.get? k with
    | none => simp [find, Value.at?, h]
    | some child => simp [find, Value.at?, h, ih child]

end adapters

namespace targetallocator

/-- The extractor over the adapters of the specification, step by step. -/
theorem getScrapeConfigs_fromSpec (Y : Yaml) (otelcolConfig : String) :
    getScrapeConfigs Y (adapters.fromSpec Y) otelcolConfig =
      match Y.Unmarshal (adapters.unescapeText otelcolConfig) with
      | .error err => .error err
      | .ok document =>
        match adapters.find document adapters.scrapeConfigsPath with
        | .error err => .error err
        | .ok scrapeConfigs => getScrapeConfigs.loop Y scrapeConfigs := by
  simp only [getScrapeConfigs, adapters.fromSpec, adapters.UnescapeDollarSignsInPromConfig,
    adapters.GetScrapeConfigsFromPromConfig, adapters.unescapeText]
  cases Y.Unmarshal (String.mk (adapters.unescape otelcolConfig.data)) <;> rfl

/-- The extractor over the adapters of the specification reads the normalized text. -/
theorem getScrapeConfigs_fromSpec_eq_withoutUnescape (Y : Yaml) (otelcolConfig : String) :
    getScrapeConfigs Y (adapters.fromSpec Y) otelcolConfig =
      getScrapeConfigs Y (adapters.withoutUnescape Y) (adapters.unescapeText otelcolConfig) := by
  simp [getScrapeConfigs, adapters.fromSpec, adapters.withoutUnescape,
    adapters.UnescapeDollarSignsInPromConfig, adapters.unescapeText]

/-- Every entry the loop returns is the `map[string]any` read back from the marshalled
element at the same position. -/
theorem getScrapeConfigs.loop_ok (Y : Yaml) {scrapeConfigs : List Value}
    {entries : List AnyConfig} (h : getScrapeConfigs.loop Y scrapeConfigs = .ok entries) :
    List.Forall₂ (fun config entry => ∃ marshaled, Y.Marshal config = .ok marshaled ∧
      Y.UnmarshalStringMap marshaled = .ok entry.Object) scrapeConfigs entries := by
  induction scrapeConfigs generalizing entries with
  | nil =>
    simp only [getScrapeConfigs.loop, Except.ok.injEq] at h
    subst h
    exact List.Forall₂.nil
  | cons config rest ih =>
    rw [getScrapeConfigs.loop] at h
    cases hm : Y.Marshal config with
    | error err => simp [hm] at h
    | ok marshaled =>
      cases hu : Y.UnmarshalStringMap marshaled with
      | error err => simp [hm, hu] at h
      | ok newConfig =>
        cases hr : getScrapeConfigs.loop Y rest with
        | error err => simp [hm, hu, hr] at h
        | ok tail =>
          simp only [hm, hu, hr, Except.ok.injEq] at h
          subst h
          exact List.Forall₂.cons ⟨marshaled, hm, hu⟩ (ih hr)

end targetallocator

/-! ## The synthesized document -/

/-- C1: on every input on which `ConfigMap` succeeds, the extraction from the agent
configuration succeeded (with the empty list when no agent is supplied), and when the
explicit list of the spec followed by the extracted list is not empty, the sequence under
`config.scrape_configs` of the synthesized document is exactly that concatenation. -/
theorem C1_scrape_configs_is_explicit_then_extracted (E : Env) (params : targetallocator.Params)
    (cm : corev1.ConfigMap)
    (hok : targetallocator.ConfigMap E params = .returns (some cm, none)) :
    ∃ doc extracted, targetallocator.Synthesized E params cm doc ∧
      targetallocator.extractedScrapeConfigs E params = .ok extracted ∧
      (targetallocator.explicitScrapeConfigs params ++ extracted ≠ [] →
        doc.at? ["config", "scrape_configs"] =
          some (.anyConfigs (targetallocator.explicitScrapeConfigs params ++ extracted))) := by
  obtain ⟨doc, hdoc⟩ := targetallocator.ConfigMap_ok hok
  obtain ⟨l, hl, -, hcfg, -⟩ := targetallocator.taConfig_returns_ok hdoc.1
  rw [targetallocator.scrapeConfigs_eq] at hl
  cases hex : targetallocator.extractedScrapeConfigs E params with
  | error err => simp [hex] at hl
  | ok extracted =>
    simp only [hex, Except.ok.injEq] at hl
    subst hl
    refine ⟨doc, extracted, hdoc, rfl, fun hne => ?_⟩
    have hpos : (targetallocator.explicitScrapeConfigs params ++ extracted).length > 0 :=
      List.length_pos.mpr hne
    simp only [hpos, if_true] at hcfg
    simp only [Value.at?, hcfg]
    simp [Value.get?, MapStr.get?]

/-- C1 at the call `Example.params`: the explicit job comes first, the extracted job second. -/
theorem C1_witness :
    ∃ doc,
      targetallocator.Synthesized refEnv Example.params (Example.returned Example.params) doc ∧
      targetallocator.extractedScrapeConfigs refEnv Example.params = .ok [Example.extractedJob] ∧
      doc.at? ["config", "scrape_configs"] =
        some (.anyConfigs [Example.explicitJob, Example.extractedJob]) := by
  obtain ⟨doc, extracted, hdoc, hex, hconcat⟩ :=
    C1_scrape_configs_is_explicit_then_extracted refEnv Example.params
      (Example.returned Example.params) (by rfl)
  have hex' : targetallocator.extractedScrapeConfigs refEnv Example.params =
      .ok [Example.extractedJob] := by rfl
  have hextracted : extracted = [Example.extractedJob] := by
    rw [hex'] at hex
    injection hex with hex
    exact hex.symm
  subst hextracted
  exact ⟨doc, hdoc, hex', hconcat (by simp)⟩

/-- C2: on every input on which `ConfigMap` succeeds, the synthesized document has the
top-level key `config` if and only if the explicit list of the spec followed by the
extracted list is not empty; in particular a nil or empty explicit list together with an
empty extracted list yields a document without the key. -/
theorem C2_config_key_iff_concatenation_nonempty (E : Env) (params : targetallocator.Params)
    (cm : corev1.ConfigMap)
    (hok : targetallocator.ConfigMap E params = .returns (some cm, none)) :
    ∃ doc extracted, targetallocator.Synthesized E params cm doc ∧
      targetallocator.extractedScrapeConfigs E params = .ok extracted ∧
      (doc.hasKey "config" = true ↔
        targetallocator.explicitScrapeConfigs params ++ extracted ≠ []) ∧
      ((params.TargetAllocator.Spec.ScrapeConfigs = none ∨
          params.TargetAllocator.Spec.ScrapeConfigs = some []) →
        extracted = [] → doc.get? "config" = none) := by
  obtain ⟨doc, hdoc⟩ := targetallocator.ConfigMap_ok hok
  obtain ⟨l, hl, -, hcfg, -⟩ := targetallocator.taConfig_returns_ok hdoc.1
  rw [targetallocator.scrapeConfigs_eq] at hl
  cases hex : targetallocator.extractedScrapeConfigs E params with
  | error err => simp [hex] at hl
  | ok extracted =>
    simp only [hex, Except.ok.injEq] at hl
    subst hl
    refine ⟨doc, extracted, hdoc, rfl, ?_, ?_⟩
    · rw [Value.hasKey, hcfg, ← List.length_pos]
      by_cases hpos : (targetallocator.explicitScrapeConfigs params ++ extracted).length > 0 <;>
        simp [hpos]
    · intro hnil hempty
      have hexp : targetallocator.explicitScrapeConfigs params = [] := by
        unfold targetallocator.explicitScrapeConfigs
        rcases hnil with h | h <;> simp [h]
      simp [hcfg, hexp, hempty]

/-- C2 at the call `Example.paramsNoScrapeConfigs`: an empty explicit list and an agent
whose `scrape_configs` sequence is empty give a document without the key `config`. -/
theorem C2_witness :
    ∃ doc,
      targetallocator.Synthesized refEnv Example.paramsNoScrapeConfigs
        (Example.returned Example.paramsNoScrapeConfigs) doc ∧
      targetallocator.extractedScrapeConfigs refEnv Example.paramsNoScrapeConfigs = .ok [] ∧
      doc.get? "config" = none := by
  obtain ⟨doc, extracted, hdoc, hex, -, hnone⟩ :=
    C2_config_key_iff_concatenation_nonempty refEnv Example.paramsNoScrapeConfigs
      (Example.returned Example.paramsNoScrapeConfigs) (by rfl)
  have hex' : targetallocator.extractedScrapeConfigs refEnv Example.paramsNoScrapeConfigs =
      .ok [] := by rfl
  have hempty : extracted = [] := by
    rw [hex'] at hex
    injection hex with hex
    exact hex.symm
  exact ⟨doc, hdoc, hex', hnone (Or.inr rfl) hempty⟩

/-- C3: on every input on which `ConfigMap` succeeds, the synthesized document has the key
`allocation_strategy`; its value is the `AllocationStrategy` of the spec when that is not
empty and the literal `consistent-hashing` when it is empty. -/
theorem C3_allocation_strategy_present_with_default (E : Env) (params : targetallocator.Params)
    (cm : corev1.ConfigMap)
    (hok : targetallocator.ConfigMap E params = .returns (some cm, none)) :
    ∃ doc, targetallocator.Synthesized E params cm doc ∧
      doc.hasKey "allocation_strategy" = true ∧
      (params.TargetAllocator.Spec.AllocationStrategy ≠ "" →
        doc.get? "allocation_strategy" =
          some (.str params.TargetAllocator.Spec.AllocationStrategy)) ∧
      (params.TargetAllocator.Spec.AllocationStrategy = "" →
        doc.get? "allocation_strategy" = some (.str "consistent-hashing")) := by
  obtain ⟨doc, hdoc⟩ := targetallocator.ConfigMap_ok hok
  obtain ⟨l, -, -, -, hstrat, -⟩ := targetallocator.taConfig_returns_ok hdoc.1
  refine ⟨doc, hdoc, ?_, ?_, ?_⟩
  · simp [Value.hasKey, hstrat]
  · intro hne
    have hpos : params.TargetAllocator.Spec.AllocationStrategy.length > 0 := by
      rcases hs : params.TargetAllocator.Spec.AllocationStrategy with ⟨cs⟩
      rw [hs] at hne
      cases cs with
      | nil => exact absurd rfl hne
      | cons c cs => simp [String.length]
    simp [hstrat, hpos]
  · intro hempty
    simp [hstrat, hempty, v1beta1.TargetAllocatorAllocationStrategyConsistentHashing]

/-- C3 at the call `Example.params`, whose spec leaves the strategy unset. -/
theorem C3_witness :
    ∃ doc,
      targetallocator.Synthesized refEnv Example.params (Example.returned Example.params) doc ∧
      doc.get? "allocation_strategy" = some (.str "consistent-hashing") := by
  obtain ⟨doc, hdoc, -, -, hdefault⟩ :=
    C3_allocation_strategy_present_with_default refEnv Example.params
      (Example.returned Example.params) (by rfl)
  exact ⟨doc, hdoc, hdefault rfl⟩

/-- C4: on every input on which `ConfigMap` succeeds, the synthesized document has the
top-level key `prometheus_cr` if and only if `PrometheusCR.Enabled` is true, and when the
key is present its `enabled` entry is `true`. -/
theorem C4_prometheus_cr_iff_enabled (E : Env) (params : targetallocator.Params)
    (cm : corev1.ConfigMap)
    (hok : targetallocator.ConfigMap E params = .returns (some cm, none)) :
    ∃ doc, targetallocator.Synthesized E params cm doc ∧
      (doc.hasKey "prometheus_cr" = true ↔
        params.TargetAllocator.Spec.PrometheusCR.Enabled = true) ∧
      (∀ cr, doc.get? "prometheus_cr" = some cr → cr.get? "enabled" = some (.bool true)) := by
  obtain ⟨doc, hdoc⟩ := targetallocator.ConfigMap_ok hok
  obtain ⟨l, -, -, -, -, -, cr, hcr, hget⟩ := targetallocator.taConfig_returns_ok hdoc.1
  obtain ⟨cr', hcr', henabled, -⟩ :=
    targetallocator.prometheusCRConfig_returns params.TargetAllocator.Spec
  rw [hcr] at hcr'
  injection hcr' with hcr'
  subst hcr'
  refine ⟨doc, hdoc, ?_, ?_⟩
  · cases he : params.TargetAllocator.Spec.PrometheusCR.Enabled <;>
      simp [Value.hasKey, hget, he]
  · intro cr0 h0
    cases he : params.TargetAllocator.Spec.PrometheusCR.Enabled with
    | false => simp [hget, he] at h0
    | true =>
      simp only [hget, he, if_true, Option.some.injEq] at h0
      subst h0
      simpa [Value.get?] using henabled

/-- C4 at the call `Example.params`, whose spec enables discovery. -/
theorem C4_witness :
    ∃ doc,
      targetallocator.Synthesized refEnv Example.params (Example.returned Example.params) doc ∧
      doc.hasKey "prometheus_cr" = true ∧
      (∀ cr, doc.get? "prometheus_cr" = some cr → cr.get? "enabled" = some (.bool true)) := by
  obtain ⟨doc, hdoc, hiff, hen⟩ :=
    C4_prometheus_cr_iff_enabled refEnv Example.params (Example.returned Example.params) (by rfl)
  exact ⟨doc, hdoc, hiff.mpr rfl, hen⟩

/-- C5 as stated fails: with discovery enabled and a scrape interval of zero, which is not
positive, `ConfigMap` succeeds and the `prometheus_cr` block of the synthesized document
has the key `scrape_interval`, with the value zero. -/
theorem C5_counterexample :
    Example.paramsZeroInterval.TargetAllocator.Spec.PrometheusCR.Enabled = true ∧
    Example.paramsZeroInterval.TargetAllocator.Spec.PrometheusCR.ScrapeInterval = some ⟨0⟩ ∧
    metav1.Duration.Size (some ⟨0⟩) = 2 ∧
    targetallocator.ConfigMap refEnv Example.paramsZeroInterval =
      .returns (some (Example.returned Example.paramsZeroInterval), none) ∧
    targetallocator.taConfig refEnv Example.paramsZeroInterval =
      .returns (.ok (.mapAny
        [(.str "allocation_strategy", .str "consistent-hashing"),
         (.str "filter_strategy", .str ""),
         (.str "prometheus_cr", .mapAny
           [(.str "enabled", .bool true),
            (.str "scrape_interval", .duration 0),
            (.str "service_monitor_selector", .labelSelectorPtr none),
            (.str "pod_monitor_selector", .labelSelectorPtr none)])])) :=
  ⟨rfl, rfl, by rfl, by rfl, by rfl⟩

/-- C5, amended: for every spec with discovery enabled on which `ConfigMap` succeeds, the
`prometheus_cr` block has the key `scrape_interval` if and only if `ScrapeInterval` is set
(not nil): an unset interval yields no key, and a set one, be it positive, zero or
negative, yields the key with that duration as its value. -/
theorem C5_scrape_interval_iff_set (E : Env) (params : targetallocator.Params)
    (cm : corev1.ConfigMap)
    (hok : targetallocator.ConfigMap E params = .returns (some cm, none))
    (henabled : params.TargetAllocator.Spec.PrometheusCR.Enabled = true) :
    ∃ doc cr, targetallocator.Synthesized E params cm doc ∧
      doc.get? "prometheus_cr" = some cr ∧
      (cr.hasKey "scrape_interval" = true ↔
        params.TargetAllocator.Spec.PrometheusCR.ScrapeInterval ≠ none) ∧
      (params.TargetAllocator.Spec.PrometheusCR.ScrapeInterval = none →
        cr.get? "scrape_interval" = none) ∧
      (∀ d, params.TargetAllocator.Spec.PrometheusCR.ScrapeInterval = some d →
        cr.get? "scrape_interval" = some (.duration d.Duration)) := by
  obtain ⟨doc, hdoc⟩ := targetallocator.ConfigMap_ok hok
  obtain ⟨l, -, -, -, -, -, cr, hcr, hget⟩ := targetallocator.taConfig_returns_ok hdoc.1
  obtain ⟨cr', hcr', -, hinterval, -⟩ :=
    targetallocator.prometheusCRConfig_returns params.TargetAllocator.Spec
  rw [hcr] at hcr'
  injection hcr' with hcr'
  subst hcr'
  simp only [henabled, if_true] at hget
  refine ⟨doc, .mapAny cr, hdoc, hget, ?_, ?_, ?_⟩
  · cases hs : params.TargetAllocator.Spec.PrometheusCR.ScrapeInterval <;>
      simp [Value.hasKey, Value.get?, hinterval, hs]
  · intro hs
    simp [Value.get?, hinterval, hs]
  · intro d hs
    simp [Value.get?, hinterval, hs]

/-- C5, amended, at the call `Example.params`, whose interval is thirty seconds. -/
theorem C5_witness :
    ∃ doc cr,
      targetallocator.Synthesized refEnv Example.params (Example.returned Example.params) doc ∧
      doc.get? "prometheus_cr" = some cr ∧
      cr.get? "scrape_interval" = some (.duration 30000000000) := by
  obtain ⟨doc, cr, hdoc, hcr, -, -, hset⟩ :=
    C5_scrape_interval_iff_set refEnv Example.params (Example.returned Example.params)
      (by rfl) rfl
  exact ⟨doc, cr, hdoc, hcr, hset ⟨30000000000⟩ rfl⟩

/-! ## Extraction -/

/-- C6: over the adapters of the specification, when the text the extractor reads parses
to a document, `getScrapeConfigs` succeeds with the empty list if the path
`receivers.prometheus.config.scrape_configs` holds an empty sequence, and fails with the
error `no scrape_configs available as part of the configuration` if the path does not lead
to a sequence. -/
theorem C6_empty_sequence_versus_missing_key (Y : Yaml) (otelcolConfig : String)
    (document : Value)
    (hparse : Y.Unmarshal (adapters.unescapeText otelcolConfig) = .ok document) :
    (document.at? ["receivers", "prometheus", "config", "scrape_configs"] = some (.seq []) →
      targetallocator.getScrapeConfigs Y (adapters.fromSpec Y) otelcolConfig = .ok []) ∧
    ((∀ xs, document.at? ["receivers", "prometheus", "config", "scrape_configs"] ≠
        some (.seq xs)) →
      targetallocator.getScrapeConfigs Y (adapters.fromSpec Y) otelcolConfig =
        .error ⟨"no scrape_configs available as part of the configuration"⟩) := by
  rw [targetallocator.getScrapeConfigs_fromSpec, hparse]
  simp only [adapters.find_eq, adapters.scrapeConfigsPath]
  constructor
  · intro h
    simp [h, targetallocator.getScrapeConfigs.loop]
  · intro h
    cases hat : document.at? ["receivers", "prometheus", "config", "scrape_configs"] with
    | none => simp [adapters.errorNoScrapeConfigs]
    | some v =>
      cases v <;> simp [adapters.errorNoScrapeConfigs]
      exact absurd hat (h _)

/-- C6 at the two cases of `TestGetScrapeConfigs`: an empty `scrape_configs` sequence, and
a `config` without the key `scrape_configs`. -/
theorem C6_witness :
    targetallocator.getScrapeConfigs refYaml.lib (adapters.fromSpec refYaml.lib)
        (Example.configText (Example.agentConfig [])) = .ok [] ∧
    targetallocator.getScrapeConfigs refYaml.lib (adapters.fromSpec refYaml.lib)
        (Example.configText Example.agentConfigNoKey) =
      .error ⟨"no scrape_configs available as part of the configuration"⟩ :=
  ⟨(C6_empty_sequence_versus_missing_key refYaml.lib
      (Example.configText (Example.agentConfig []))
      (Example.agentDocument (.mapAny [(.str "scrape_configs", .seq [])])) (by rfl)).1 (by rfl),
   (C6_empty_sequence_versus_missing_key refYaml.lib
      (Example.configText Example.agentConfigNoKey)
      (Example.agentDocument (.mapAny [])) (by rfl)).2
      (fun xs h => by
        have hnone : (Example.agentDocument (.mapAny [])).at?
            ["receivers", "prometheus", "config", "scrape_configs"] = none := by rfl
        rw [hnone] at h
        exact Option.noConfusion h)⟩

/-- Over the adapters of the specification and any YAML library, extraction from a text in
which `$$1` stands reads the text with `$1` in that place, the rest of the text being
normalized; and extraction from a text in which a single-dollar `$1` stands, with no dollar
sign right before it, reads `$1` in that place as well. -/
theorem targetallocator.getScrapeConfigs_dollar_text (Y : Yaml) (before after : String) :
    targetallocator.getScrapeConfigs Y (adapters.fromSpec Y) (before ++ "$$1" ++ after) =
      targetallocator.getScrapeConfigs Y (adapters.withoutUnescape Y)
        (adapters.unescapeText before ++ "$1" ++ adapters.unescapeText after) ∧
    (before.data.getLast? ≠ some '$' →
      targetallocator.getScrapeConfigs Y (adapters.fromSpec Y) (before ++ "$1" ++ after) =
        targetallocator.getScrapeConfigs Y (adapters.withoutUnescape Y)
          (adapters.unescapeText before ++ "$1" ++ adapters.unescapeText after)) := by
  constructor
  · rw [targetallocator.getScrapeConfigs_fromSpec_eq_withoutUnescape]
    congr 1
    apply String.ext
    simp only [adapters.unescapeText, String.data_append, List.append_assoc]
    exact adapters.unescape_double_dollar before.data after.data
  · intro hlast
    rw [targetallocator.getScrapeConfigs_fromSpec_eq_withoutUnescape]
    congr 1
    apply String.ext
    simp only [adapters.unescapeText, String.data_append, List.append_assoc]
    rw [adapters.unescape_append _ _ hlast]
    simp only [List.cons_append, List.nil_append]
    rw [adapters.unescape_dollar_cons_of_ne (show '1' ≠ '$' by decide) after.data,
      adapters.unescape_cons_of_ne (show '1' ≠ '$' by decide) after.data]

/-- The text of the case `regex substitution` of `TestGetScrapeConfigs`: the replacement
`$$1` of the text comes out as `$1`, and so does the replacement `$1`. -/
theorem targetallocator.getScrapeConfigs_regexText :
    Example.regexBefore ++ "$$1" ++ Example.regexAfter = Example.regexText ∧
    targetallocator.getScrapeConfigs refYaml.lib (adapters.fromSpec refYaml.lib)
        (Example.regexBefore ++ "$$1" ++ Example.regexAfter) = .ok [Example.regexEntry] ∧
    targetallocator.getScrapeConfigs refYaml.lib (adapters.fromSpec refYaml.lib)
        (Example.regexBefore ++ "$1" ++ Example.regexAfter) = .ok [Example.regexEntry] := by
  have hread : targetallocator.getScrapeConfigs refYaml.lib (adapters.withoutUnescape refYaml.lib)
      (adapters.unescapeText Example.regexBefore ++ "$1" ++
        adapters.unescapeText Example.regexAfter) = .ok [Example.regexEntry] := by rfl
  have h := targetallocator.getScrapeConfigs_dollar_text refYaml.lib Example.regexBefore
    Example.regexAfter
  exact ⟨by rfl, h.1.trans hread, (h.2 (by decide)).trans hread⟩

/-! ## The reference library on plain documents -/

namespace refYaml

theorem emitString_eq (s : String) : emitString s = quote :: escape s.data ++ [quote] := rfl

theorem escape_nil : escape [] = [] := rfl

theorem escape_cons (c : Char) (cs : List Char) :
    escape (c :: cs) =
      (if c = quote ∨ c = backslash then [backslash, c] else [c]) ++ escape cs := by
  simp [escape]

theorem quote_ne_dollar : quote ≠ '$' := by decide

theorem backslash_ne_dollar : backslash ≠ '$' := by decide

theorem dollar_not_special : ¬ ('$' = quote ∨ '$' = backslash) := by decide

/-- The first character of an escaped body followed by a quote is not a dollar sign unless
the body starts with one. -/
theorem escape_head (cs rest : List Char) (hcs : ∀ r, cs ≠ '$' :: r) :
    ∃ d tail, escape cs ++ quote :: rest = d :: tail ∧ d ≠ '$' := by
  cases cs with
  | nil => exact ⟨quote, rest, rfl, quote_ne_dollar⟩
  | cons c cs =>
    have hc : c ≠ '$' := fun h => hcs cs (by rw [h])
    rw [escape_cons]
    by_cases hsp : c = quote ∨ c = backslash
    · exact ⟨backslash, c :: (escape cs ++ quote :: rest), by simp [hsp], backslash_ne_dollar⟩
    · exact ⟨c, escape cs ++ quote :: rest, by simp [hsp], hc⟩

/-- The normalizer commutes with the escaping of a string body. -/
theorem unescape_escape (s rest : List Char) :
    adapters.unescape (escape s ++ quote :: rest) =
      escape (adapters.unescape s) ++ quote :: adapters.unescape rest := by
  induction s using adapters.unescape.induct with
  | case1 r ih =>
    have hesc : escape ('$' :: '$' :: r) = '$' :: '$' :: escape r := by
      simp [escape_cons, dollar_not_special]
    rw [hesc, List.cons_append, List.cons_append, adapters.unescape.eq_1,
      adapters.unescape.eq_1, ih, escape_cons]
    simp [dollar_not_special]
  | case2 c r hne ih =>
    by_cases hc : c = '$'
    · subst hc
      have hr : ∀ r', r ≠ '$' :: r' := fun r' h => hne r' rfl (by rw [h])
      obtain ⟨d, tail, htail, hd⟩ := escape_head r rest hr
      have hun : adapters.unescape ('$' :: r) = '$' :: adapters.unescape r := by
        cases r with
        | nil => simp [adapters.unescape]
        | cons e r' =>
          exact adapters.unescape_dollar_cons_of_ne
            (fun h => hr r' (by rw [h])) r'
      rw [hun]
      simp only [escape_cons, dollar_not_special, if_false, List.cons_append, List.nil_append]
      rw [htail, adapters.unescape_dollar_cons_of_ne hd, ← htail, ih]
    · rw [adapters.unescape_cons_of_ne hc, escape_cons, escape_cons]
      by_cases hsp : c = quote ∨ c = backslash
      · simp only [hsp, if_true, List.cons_append, List.nil_append]
        rw [adapters.unescape_cons_of_ne backslash_ne_dollar, adapters.unescape_cons_of_ne hc, ih]
      · simp only [hsp, if_false, List.cons_append, List.nil_append]
        rw [adapters.unescape_cons_of_ne hc, ih]
  | case3 =>
    simp only [escape_nil, List.nil_append, adapters.unescape]

theorem readString_cons (c : Char) (rest acc : List Char) :
    readString (c :: rest) acc =
      if c = quote then some (String.mk acc.reverse, rest)
      else if c = backslash then
        match rest with
        | [] => none
        | d :: rest' => readString rest' (d :: acc)
      else readString rest (c :: acc) := by
  rw [readString.eq_def]

/-- Reading back an escaped body gives the string. -/
theorem readString_escape (s rest acc : List Char) :
    readString (escape s ++ quote :: rest) acc = some (String.mk (acc.reverse ++ s), rest) := by
  induction s generalizing acc with
  | nil => simp [escape_nil, readString_cons]
  | cons c s ih =>
    rw [escape_cons]
    by_cases hsp : c = quote ∨ c = backslash
    · simp only [hsp, if_true, List.cons_append, List.nil_append]
      rw [readString_cons]
      have h1 : backslash ≠ quote := by decide
      simp only [h1, if_false, if_true]
      rw [ih]
      simp
    · simp only [hsp, if_false, List.cons_append, List.nil_append]
      rw [readString_cons]
      have h1 : c ≠ quote := fun h => hsp (Or.inl h)
      have h2 : c ≠ backslash := fun h => hsp (Or.inr h)
      simp only [h1, h2, if_false]
      rw [ih]
      simp

/-- A text without dollar signs is left as it is by the normalizer. -/
theorem unescape_of_no_dollar (cs : List Char) (h : cs.contains '$' = false) :
    adapters.unescape cs = cs := by
  induction cs with
  | nil => rfl
  | cons c cs ih =>
    simp only [List.contains_cons, Bool.or_eq_false_iff] at h
    have hc : c ≠ '$' := by
      intro hc
      rw [hc] at h
      simp at h
    rw [adapters.unescape_cons_of_ne hc, ih h.2]

set_option maxHeartbeats 4000000 in
theorem parse_quote (fuel : Nat) (cs : List Char) :
    parse (fuel + 1) (quote :: cs) =
      match readString cs [] with
      | some (s, rest') => some (.str s, rest')
      | none => none := rfl

set_option maxHeartbeats 4000000 in
theorem parse_null (fuel : Nat) (rest : List Char) :
    parse (fuel + 1) ('n' :: 'u' :: 'l' :: 'l' :: rest) = some (.null, rest) := rfl

set_option maxHeartbeats 4000000 in
theorem parse_true (fuel : Nat) (rest : List Char) :
    parse (fuel + 1) ('t' :: 'r' :: 'u' :: 'e' :: rest) = some (.bool true, rest) := rfl

set_option maxHeartbeats 4000000 in
theorem parse_false (fuel : Nat) (rest : List Char) :
    parse (fuel + 1) ('f' :: 'a' :: 'l' :: 's' :: 'e' :: rest) = some (.bool false, rest) := rfl

set_option maxHeartbeats 4000000 in
theorem parse_seq_nil (fuel : Nat) (rest : List Char) :
    parse (fuel + 1) ('[' :: ']' :: rest) = some (.seq [], rest) := rfl

set_option maxHeartbeats 4000000 in
theorem parse_seq_cons (fuel : Nat) (c : Char) (rest : List Char)
    (hc : c ∈ [quote, '[', lbrace, 'n', 't', 'f']) :
    parse (fuel + 1) ('[' :: c :: rest) =
      match parseSeq fuel (c :: rest) with
      | some (xs, rest') => some (.seq xs, rest')
      | none => none := by
  simp only [List.mem_cons, List.mem_singleton, List.not_mem_nil, or_false] at hc
  rcases hc with rfl | rfl | rfl | rfl | rfl | rfl <;> rfl

set_option maxHeartbeats 4000000 in
theorem parse_map_nil (fuel : Nat) (rest : List Char) :
    parse (fuel + 1) (lbrace :: rbrace :: rest) = some (.mapAny [], rest) := rfl

set_option maxHeartbeats 4000000 in
theorem parse_map_cons (fuel : Nat) (rest : List Char) :
    parse (fuel + 1) (lbrace :: quote :: rest) =
      match parseMap fuel (quote :: rest) [] with
      | some (kvs, rest'') => some (.mapAny kvs, rest'')
      | none => none := rfl

set_option maxHeartbeats 4000000 in
theorem parseSeq_succ (fuel : Nat) (cs : List Char) :
    parseSeq (fuel + 1) cs =
      match parse fuel cs with
      | some (v, ',' :: rest) =>
        match parseSeq fuel rest with
        | some (vs, rest') => some (v :: vs, rest')
        | none => none
      | some (v, ']' :: rest) => some ([v], rest)
      | _ => none := rfl

set_option maxHeartbeats 4000000 in
theorem parseMap_succ (fuel : Nat) (cs : List Char) (acc : List (Value × Value)) :
    parseMap (fuel + 1) cs acc =
      match parse fuel cs with
      | some (.str k, ':' :: rest) =>
        match parse fuel rest with
        | some (v, c :: rest') =>
          if c = ',' then parseMap fuel rest' (MapAny.set acc k v)
          else if c = rbrace then some (MapAny.set acc k v, rest')
          else none
        | _ => none
      | _ => none := rfl

theorem emit_str (s : String) : emit (.str s) = some (emitString s) := rfl

theorem emit_seq (xs : List Value) :
    emit (.seq xs) = (emitSeq xs).map fun items => '[' :: emitItems ']' items := rfl

theorem emit_mapStr (kvs : List (String × Value)) :
    emit (.mapStr kvs) = (emitStr kvs).map fun items => lbrace :: emitItems rbrace items := rfl

theorem emit_mapAny (kvs : List (Value × Value)) :
    emit (.mapAny kvs) = (emitAny kvs).map fun items => lbrace :: emitItems rbrace items := rfl

theorem emitSeq_cons (x : Value) (xs : List Value) :
    emitSeq (x :: xs) =
      match emit x, emitSeq xs with
      | some t, some ts => some (t :: ts)
      | _, _ => none := rfl

theorem emitStr_cons (k : String) (v : Value) (kvs : List (String × Value)) :
    emitStr ((k, v) :: kvs) =
      match emit v, emitStr kvs with
      | some t, some ts => some ((emitString k ++ ':' :: t) :: ts)
      | _, _ => none := rfl

theorem emitAny_cons (k : String) (v : Value) (kvs : List (Value × Value)) :
    emitAny ((.str k, v) :: kvs) =
      match emit v, emitAny kvs with
      | some t, some ts => some ((emitString k ++ ':' :: t) :: ts)
      | _, _ => none := rfl

theorem emitItems_nil (close : Char) : emitItems close [] = [close] := rfl

theorem emitItems_singleton (close : Char) (x : List Char) :
    emitItems close [x] = x ++ [close] := rfl

theorem emitItems_cons_cons (close : Char) (x y : List Char) (rest : List (List Char)) :
    emitItems close (x :: y :: rest) = x ++ ',' :: emitItems close (y :: rest) := rfl

theorem emitItems_getLast (close : Char) (items : List (List Char)) :
    (emitItems close items).getLast? = some close := by
  induction items with
  | nil => rfl
  | cons x rest ih =>
    cases rest with
    | nil => simp [emitItems_singleton]
    | cons y rest =>
      rw [emitItems_cons_cons, List.getLast?_append]
      cases hrest : emitItems close (y :: rest) with
      | nil => simp [hrest] at ih
      | cons e es =>
        rw [hrest] at ih
        simp [List.getLast?_cons_cons, ih]

/-- The normalizer works item by item on a flow collection whose items do not end in a
dollar sign. -/
theorem unescape_emitItems (close : Char) (hclose : close ≠ '$') (items : List (List Char))
    (hitems : ∀ it ∈ items, it.getLast? ≠ some '$') :
    adapters.unescape (emitItems close items) =
      emitItems close (items.map adapters.unescape) := by
  induction items with
  | nil =>
    simp only [emitItems_nil, List.map_nil]
    rw [adapters.unescape_cons_of_ne hclose]
    rfl
  | cons x rest ih =>
    have hx : x.getLast? ≠ some '$' := hitems x (List.mem_cons_self _ _)
    have hrest : ∀ it ∈ rest, it.getLast? ≠ some '$' :=
      fun it hit => hitems it (List.mem_cons_of_mem _ hit)
    cases rest with
    | nil =>
      simp only [emitItems_singleton, List.map_cons, List.map_nil]
      rw [adapters.unescape_append _ _ hx, adapters.unescape_cons_of_ne hclose]
      rfl
    | cons y rest =>
      simp only [emitItems_cons_cons, List.map_cons]
      rw [adapters.unescape_append _ _ hx,
        adapters.unescape_cons_of_ne (show ',' ≠ '$' by decide), ih hrest]
      rfl

theorem emitString_getLast (s : String) : (emitString s).getLast? = some quote := by
  rw [emitString_eq, List.getLast?_append]
  rfl

mutual
theorem emit_plain :
    ∀ v : Value, v.isPlain = true →
      ∃ t, emit v = some t ∧ (∃ c tail, t = c :: tail ∧ c ∈ [quote, '[', lbrace, 'n', 't', 'f']) ∧ t.getLast? ≠ some '$'
  | .null, _ => ⟨_, rfl, ⟨'n', _, rfl, by simp⟩, by decide⟩
  | .bool true, _ => ⟨_, rfl, ⟨'t', _, rfl, by simp⟩, by decide⟩
  | .bool false, _ => ⟨_, rfl, ⟨'f', _, rfl, by simp⟩, by decide⟩
  | .str s, _ =>
    ⟨_, rfl, ⟨quote, _, rfl, by simp⟩, by rw [emitString_getLast]; decide⟩
  | .seq xs, h => by
    simp only [Value.isPlain] at h
    obtain ⟨items, hitems, -⟩ := emitSeq_plain xs h
    refine ⟨'[' :: emitItems ']' items, by rw [emit_seq, hitems]; rfl,
      ⟨'[', _, rfl, by simp⟩, ?_⟩
    have hlast := emitItems_getLast ']' items
    cases hI : emitItems ']' items with
    | nil => simp [hI] at hlast
    | cons e es =>
      rw [hI] at hlast
      rw [List.getLast?_cons_cons, hlast]
      decide
  | .mapStr kvs, h => by
    simp only [Value.isPlain] at h
    obtain ⟨items, hitems, -⟩ := emitStr_plain kvs h
    refine ⟨lbrace :: emitItems rbrace items, by rw [emit_mapStr, hitems]; rfl,
      ⟨lbrace, _, rfl, by simp⟩, ?_⟩
    have hlast := emitItems_getLast rbrace items
    cases hI : emitItems rbrace items with
    | nil => simp [hI] at hlast
    | cons e es =>
      rw [hI] at hlast
      rw [List.getLast?_cons_cons, hlast]
      decide
  | .int _, h => by simp [Value.isPlain] at h
  | .duration _, h => by simp [Value.isPlain] at h
  | .labelSelector _, h => by simp [Value.isPlain] at h
  | .labelSelectorPtr _, h => by simp [Value.isPlain] at h
  | .mapAny _, h => by simp [Value.isPlain] at h
  | .anyConfigs _, h => by simp [Value.isPlain] at h
theorem emitSeq_plain :
    ∀ xs : List Value, Value.isPlainList xs = true →
      ∃ items, emitSeq xs = some items ∧
        ∀ it ∈ items, (∃ c tail, it = c :: tail ∧ c ∈ [quote, '[', lbrace, 'n', 't', 'f']) ∧ it.getLast? ≠ some '$'
  | [], _ => ⟨[], rfl, fun _ h => absurd h (List.not_mem_nil _)⟩
  | x :: xs, h => by
    simp only [Value.isPlainList, Bool.and_eq_true] at h
    obtain ⟨t, ht, hhead, hlast⟩ := emit_plain x h.1
    obtain ⟨items, hitems, hall⟩ := emitSeq_plain xs h.2
    refine ⟨t :: items, by rw [emitSeq_cons, ht, hitems], ?_⟩
    intro it hit
    rcases List.mem_cons.mp hit with rfl | hit
    · exact ⟨hhead, hlast⟩
    · exact hall it hit
theorem emitStr_plain :
    ∀ kvs : List (String × Value), Value.isPlainEntries kvs = true →
      ∃ items, emitStr kvs = some items ∧
        ∀ it ∈ items, (∃ tail, it = quote :: tail) ∧ it.getLast? ≠ some '$'
  | [], _ => ⟨[], rfl, fun _ h => absurd h (List.not_mem_nil _)⟩
  | (k, v) :: kvs, h => by
    simp only [Value.isPlainEntries, Bool.and_eq_true] at h
    obtain ⟨t, ht, hhead, hlast⟩ := emit_plain v h.1.2
    obtain ⟨items, hitems, hall⟩ := emitStr_plain kvs h.2
    refine ⟨(emitString k ++ ':' :: t) :: items, by rw [emitStr_cons, ht, hitems], ?_⟩
    intro it hit
    rcases List.mem_cons.mp hit with rfl | hit
    · refine ⟨⟨_, by rw [emitString_eq]; rfl⟩, ?_⟩
      obtain ⟨c, tail, rfl, -⟩ := hhead
      rw [List.getLast?_append, List.getLast?_cons_cons]
      cases hl : (c :: tail).getLast? with
      | none => simp at hl
      | some e =>
        rw [hl] at hlast
        simpa using hlast
    · exact hall it hit
end

end refYaml

mutual
theorem Value.isPlain_unescaped : ∀ v : Value, v.isPlain = true → v.unescaped.isPlain = true
  | .null, _ => rfl
  | .bool _, _ => rfl
  | .str _, _ => rfl
  | .seq xs, h => by
    simp only [Value.unescaped, Value.isPlain] at h ⊢
    exact Value.isPlainList_unescaped xs h
  | .mapStr kvs, h => by
    simp only [Value.unescaped, Value.isPlain] at h ⊢
    exact (Value.isPlainEntries_unescaped kvs h).1
  | .int _, h => by simp [Value.isPlain] at h
  | .duration _, h => by simp [Value.isPlain] at h
  | .labelSelector _, h => by simp [Value.isPlain] at h
  | .labelSelectorPtr _, h => by simp [Value.isPlain] at h
  | .mapAny _, h => by simp [Value.isPlain] at h
  | .anyConfigs _, h => by simp [Value.isPlain] at h
theorem Value.isPlainList_unescaped :
    ∀ xs : List Value, Value.isPlainList xs = true →
      Value.isPlainList (Value.unescapedList xs) = true
  | [], _ => rfl
  | x :: xs, h => by
    simp only [Value.unescapedList, Value.isPlainList, Bool.and_eq_true] at h ⊢
    exact ⟨Value.isPlain_unescaped x h.1, Value.isPlainList_unescaped xs h.2⟩
theorem Value.isPlainEntries_unescaped :
    ∀ kvs : List (String × Value), Value.isPlainEntries kvs = true →
      Value.isPlainEntries (Value.unescapedEntries kvs) = true ∧
      (Value.unescapedEntries kvs).map Prod.fst = kvs.map Prod.fst
  | [], _ => ⟨rfl, rfl⟩
  | (k, v) :: kvs, h => by
    simp only [Value.unescapedEntries, Value.isPlainEntries, Bool.and_eq_true] at h ⊢
    obtain ⟨ih1, ih2⟩ := Value.isPlainEntries_unescaped kvs h.2
    refine ⟨⟨⟨⟨h.1.1.1, ?_⟩, Value.isPlain_unescaped v h.1.2⟩, ih1⟩, ?_⟩
    · rw [ih2]; exact h.1.1.2
    · simp [ih2]
end

namespace refYaml

/-- The normalizer leaves the key of an entry as it is and works on the value. -/
theorem unescape_entry (k : String) (hk : k.data.contains '$' = false) (t : List Char) :
    adapters.unescape (emitString k ++ ':' :: t) = emitString k ++ ':' :: adapters.unescape t := by
  have h1 : emitString k ++ ':' :: t = quote :: (escape k.data ++ quote :: (':' :: t)) := by
    rw [emitString_eq]; simp
  have h2 : emitString k ++ ':' :: adapters.unescape t =
      quote :: (escape k.data ++ quote :: (':' :: adapters.unescape t)) := by
    rw [emitString_eq]; simp
  rw [h1, h2, adapters.unescape_cons_of_ne quote_ne_dollar, unescape_escape,
    unescape_of_no_dollar _ hk, adapters.unescape_cons_of_ne (show ':' ≠ '$' by decide)]

/-- The normalizer on the text of a string is the text of the normalized string. -/
theorem unescape_emitString (s : String) :
    adapters.unescape (emitString s) = emitString (adapters.unescapeString s) := by
  have h1 : emitString s = quote :: (escape s.data ++ quote :: []) := by
    rw [emitString_eq]; simp
  have h2 : emitString (adapters.unescapeString s) =
      quote :: (escape (adapters.unescape s.data) ++ quote :: []) := by
    rw [emitString_eq]; simp [adapters.unescapeString]
  rw [h1, h2, adapters.unescape_cons_of_ne quote_ne_dollar, unescape_escape]
  rfl

mutual
theorem emit_unescaped :
    ∀ v : Value, v.isPlain = true → ∀ t, emit v = some t →
      emit v.unescaped = some (adapters.unescape t)
  | .null, _, t, ht => by
    cases ht
    rfl
  | .bool true, _, t, ht => by
    cases ht
    rfl
  | .bool false, _, t, ht => by
    cases ht
    rfl
  | .str s, _, t, ht => by
    rw [emit_str] at ht
    cases ht
    rw [unescape_emitString]
    rfl
  | .seq xs, h, t, ht => by
    simp only [Value.isPlain] at h
    obtain ⟨items, hitems, hall⟩ := emitSeq_plain xs h
    rw [emit_seq, hitems] at ht
    cases ht
    simp only [Value.unescaped]
    rw [emit_seq, emitSeq_unescaped xs h items hitems,
      adapters.unescape_cons_of_ne (show '[' ≠ '$' by decide),
      unescape_emitItems ']' (by decide) items fun it hit => (hall it hit).2]
    rfl
  | .mapStr kvs, h, t, ht => by
    simp only [Value.isPlain] at h
    obtain ⟨items, hitems, hall⟩ := emitStr_plain kvs h
    rw [emit_mapStr, hitems] at ht
    cases ht
    simp only [Value.unescaped]
    rw [emit_mapStr, emitStr_unescaped kvs h items hitems,
      adapters.unescape_cons_of_ne (show lbrace ≠ '$' by decide),
      unescape_emitItems rbrace (by decide) items fun it hit => (hall it hit).2]
    rfl
  | .int _, h, _, _ => by simp [Value.isPlain] at h
  | .duration _, h, _, _ => by simp [Value.isPlain] at h
  | .labelSelector _, h, _, _ => by simp [Value.isPlain] at h
  | .labelSelectorPtr _, h, _, _ => by simp [Value.isPlain] at h
  | .mapAny _, h, _, _ => by simp [Value.isPlain] at h
  | .anyConfigs _, h, _, _ => by simp [Value.isPlain] at h
theorem emitSeq_unescaped :
    ∀ xs : List Value, Value.isPlainList xs = true → ∀ items, emitSeq xs = some items →
      emitSeq (Value.unescapedList xs) = some (items.map adapters.unescape)
  | [], _, items, hitems => by
    cases hitems
    rfl
  | x :: xs, h, items, hitems => by
    simp only [Value.isPlainList, Bool.and_eq_true] at h
    obtain ⟨t, ht, -⟩ := emit_plain x h.1
    obtain ⟨ts, hts, -⟩ := emitSeq_plain xs h.2
    rw [emitSeq_cons, ht, hts] at hitems
    cases hitems
    simp only [Value.unescapedList]
    rw [emitSeq_cons, emit_unescaped x h.1 t ht, emitSeq_unescaped xs h.2 ts hts]
    rfl
theorem emitStr_unescaped :
    ∀ kvs : List (String × Value), Value.isPlainEntries kvs = true →
      ∀ items, emitStr kvs = some items →
        emitStr (Value.unescapedEntries kvs) = some (items.map adapters.unescape)
  | [], _, items, hitems => by
    cases hitems
    rfl
  | (k, v) :: kvs, h, items, hitems => by
    simp only [Value.isPlainEntries, Bool.and_eq_true, Bool.not_eq_true'] at h
    obtain ⟨t, ht, -⟩ := emit_plain v h.1.2
    obtain ⟨ts, hts, -⟩ := emitStr_plain kvs
      (by simpa only [Value.isPlainEntries] using h.2)
    rw [emitStr_cons, ht, hts] at hitems
    cases hitems
    simp only [Value.unescapedEntries]
    rw [emitStr_cons, emit_unescaped v h.1.2 t ht, emitStr_unescaped kvs h.2 ts hts]
    simp only [List.map_cons]
    rw [unescape_entry k h.1.1.1]
end

mutual
theorem emit_decoded : ∀ v : Value, v.isPlain = true → emit v.decoded = emit v
  | .null, _ => rfl
  | .bool _, _ => rfl
  | .str _, _ => rfl
  | .seq xs, h => by
    simp only [Value.isPlain] at h
    simp only [Value.decoded]
    rw [emit_seq, emit_seq, emitSeq_decoded xs h]
  | .mapStr kvs, h => by
    simp only [Value.isPlain] at h
    simp only [Value.decoded]
    rw [emit_mapAny, emit_mapStr, emitAny_decoded kvs h]
  | .int _, h => by simp [Value.isPlain] at h
  | .duration _, h => by simp [Value.isPlain] at h
  | .labelSelector _, h => by simp [Value.isPlain] at h
  | .labelSelectorPtr _, h => by simp [Value.isPlain] at h
  | .mapAny _, h => by simp [Value.isPlain] at h
  | .anyConfigs _, h => by simp [Value.isPlain] at h
theorem emitSeq_decoded :
    ∀ xs : List Value, Value.isPlainList xs = true →
      emitSeq (Value.decodedList xs) = emitSeq xs
  | [], _ => rfl
  | x :: xs, h => by
    simp only [Value.isPlainList, Bool.and_eq_true] at h
    simp only [Value.decodedList]
    rw [emitSeq_cons, emitSeq_cons, emit_decoded x h.1, emitSeq_decoded xs h.2]
theorem emitAny_decoded :
    ∀ kvs : List (String × Value), Value.isPlainEntries kvs = true →
      emitAny (Value.decodedEntries kvs) = emitStr kvs
  | [], _ => rfl
  | (k, v) :: kvs, h => by
    simp only [Value.isPlainEntries, Bool.and_eq_true] at h
    simp only [Value.decodedEntries]
    rw [emitAny_cons, emitStr_cons, emit_decoded v h.1.2, emitAny_decoded kvs h.2]
end

theorem emitItems_cons_head (close c : Char) (tail : List Char) (ts : List (List Char)) :
    emitItems close ((c :: tail) :: ts) = c :: emitItems close (tail :: ts) := by
  cases ts with
  | nil => rfl
  | cons y rest => rfl

/-- The text of a string is read back as the string. -/
theorem parse_emitString (s : String) (fuel : Nat) (rest : List Char) :
    parse (fuel + 1) (emitString s ++ rest) = some (.str s, rest) := by
  have h1 : emitString s ++ rest = quote :: (escape s.data ++ quote :: rest) := by
    rw [emitString_eq]; simp
  rw [h1, parse_quote, readString_escape]
  rfl

theorem emitString_length (s : String) : 2 ≤ (emitString s).length := by
  rw [emitString_eq]
  simp only [List.length_append, List.length_cons, List.length_nil]
  omega

theorem parseSeq_last (fuel : Nat) (cs rest : List Char) (v : Value)
    (h : parse fuel cs = some (v, ']' :: rest)) :
    parseSeq (fuel + 1) cs = some ([v], rest) := by
  rw [parseSeq_succ, h]
  rfl

theorem parseSeq_more (fuel : Nat) (cs rest : List Char) (v : Value)
    (h : parse fuel cs = some (v, ',' :: rest)) :
    parseSeq (fuel + 1) cs =
      match parseSeq fuel rest with
      | some (vs, rest') => some (v :: vs, rest')
      | none => none := by
  rw [parseSeq_succ, h]
  rfl

theorem parseMap_last (fuel : Nat) (cs rest rest' : List Char) (k : String) (v : Value)
    (acc : List (Value × Value))
    (h1 : parse fuel cs = some (.str k, ':' :: rest))
    (h2 : parse fuel rest = some (v, rbrace :: rest')) :
    parseMap (fuel + 1) cs acc = some (MapAny.set acc k v, rest') := by
  rw [parseMap_succ, h1]
  simp only [h2]
  rfl

theorem parseMap_more (fuel : Nat) (cs rest rest' : List Char) (k : String) (v : Value)
    (acc : List (Value × Value))
    (h1 : parse fuel cs = some (.str k, ':' :: rest))
    (h2 : parse fuel rest = some (v, ',' :: rest')) :
    parseMap (fuel + 1) cs acc = parseMap fuel rest' (MapAny.set acc k v) := by
  rw [parseMap_succ, h1]
  simp only [h2]
  rfl

end refYaml

/-- An assignment under a key the map does not hold adds the entry at the end. -/
theorem MapAny.set_of_fresh (acc : List (Value × Value)) (k : String) (v : Value)
    (h : ∀ kv ∈ acc, kv.1.isKey k = false) : MapAny.set acc k v = acc ++ [(.str k, v)] := by
  induction acc with
  | nil => rfl
  | cons kv rest ih =>
    obtain ⟨k', v'⟩ := kv
    have hk : k'.isKey k = false := h (k', v') (List.mem_cons_self _ _)
    simp only [MapAny.set, hk, Bool.false_eq_true, if_false, List.cons_append]
    rw [ih fun kv hkv => h kv (List.mem_cons_of_mem _ hkv)]

namespace refYaml

theorem emitSeq_eq_nil {xs : List Value} (h : emitSeq xs = some []) : xs = [] := by
  cases xs with
  | nil => rfl
  | cons x xs =>
    rw [emitSeq_cons] at h
    cases hx : emit x <;> cases hxs : emitSeq xs <;> simp [hx, hxs] at h

theorem emitStr_eq_nil {kvs : List (String × Value)} (h : emitStr kvs = some []) :
    kvs = [] := by
  cases kvs with
  | nil => rfl
  | cons kv kvs =>
    obtain ⟨k, v⟩ := kv
    rw [emitStr_cons] at h
    cases hx : emit v <;> cases hxs : emitStr kvs <;> simp [hx, hxs] at h

mutual
theorem parse_emit :
    ∀ v : Value, v.isPlain = true → ∀ t, emit v = some t →
      ∀ fuel rest, t.length ≤ fuel → parse fuel (t ++ rest) = some (v.decoded, rest)
  | .null, _, t, ht, fuel, rest, hlen => by
    cases ht
    cases fuel with
    | zero => exact absurd hlen (by decide)
    | succ f => exact parse_null f rest
  | .bool true, _, t, ht, fuel, rest, hlen => by
    cases ht
    cases fuel with
    | zero => exact absurd hlen (by decide)
    | succ f => exact parse_true f rest
  | .bool false, _, t, ht, fuel, rest, hlen => by
    cases ht
    cases fuel with
    | zero => exact absurd hlen (by decide)
    | succ f => exact parse_false f rest
  | .str s, _, t, ht, fuel, rest, hlen => by
    rw [emit_str] at ht
    cases ht
    cases fuel with
    | zero =>
      have := emitString_length s
      omega
    | succ f => exact parse_emitString s f rest
  | .seq xs, h, t, ht, fuel, rest, hlen => by
    simp only [Value.isPlain] at h
    obtain ⟨items, hitems, hall⟩ := emitSeq_plain xs h
    have hp := parseSeq_emit xs h
    rw [emit_seq, hitems] at ht
    cases ht
    simp only [Value.decoded]
    cases fuel with
    | zero => simp at hlen
    | succ f =>
      simp only [List.length_cons, Nat.add_le_add_iff_right] at hlen
      cases items with
      | nil =>
        have hxs : xs = [] := emitSeq_eq_nil hitems
        subst hxs
        exact parse_seq_nil f rest
      | cons tx ts =>
        have hne : xs ≠ [] := by
          intro hxs
          subst hxs
          cases hitems
        have hp' := hp hne (tx :: ts) hitems f rest hlen
        obtain ⟨⟨c, tail, rfl, hc⟩, -⟩ := hall tx (List.mem_cons_self _ _)
        rw [emitItems_cons_head] at hp' ⊢
        have hgoal := parse_seq_cons f c (emitItems ']' (tail :: ts) ++ rest) hc
        rw [show c :: (emitItems ']' (tail :: ts) ++ rest) =
          c :: emitItems ']' (tail :: ts) ++ rest from rfl, hp'] at hgoal
        exact hgoal
  | .mapStr kvs, h, t, ht, fuel, rest, hlen => by
    simp only [Value.isPlain] at h
    obtain ⟨items, hitems, hall⟩ := emitStr_plain kvs h
    have hp := parseMap_emit kvs h
    rw [emit_mapStr, hitems] at ht
    cases ht
    simp only [Value.decoded]
    cases fuel with
    | zero => simp at hlen
    | succ f =>
      simp only [List.length_cons, Nat.add_le_add_iff_right] at hlen
      cases items with
      | nil =>
        have hkvs : kvs = [] := emitStr_eq_nil hitems
        subst hkvs
        exact parse_map_nil f rest
      | cons tx ts =>
        have hne : kvs ≠ [] := by
          intro hkvs
          subst hkvs
          cases hitems
        have hp' := hp hne (tx :: ts) hitems f rest [] hlen
          (fun _ _ kv hkv => absurd hkv (List.not_mem_nil _))
        obtain ⟨⟨tail, rfl⟩, -⟩ := hall tx (List.mem_cons_self _ _)
        rw [emitItems_cons_head] at hp' ⊢
        have hgoal := parse_map_cons f (emitItems rbrace (tail :: ts) ++ rest)
        rw [show quote :: (emitItems rbrace (tail :: ts) ++ rest) =
          quote :: emitItems rbrace (tail :: ts) ++ rest from rfl, hp'] at hgoal
        exact hgoal
  | .int _, h, _, _, _, _, _ => by simp [Value.isPlain] at h
  | .duration _, h, _, _, _, _, _ => by simp [Value.isPlain] at h
  | .labelSelector _, h, _, _, _, _, _ => by simp [Value.isPlain] at h
  | .labelSelectorPtr _, h, _, _, _, _, _ => by simp [Value.isPlain] at h
  | .mapAny _, h, _, _, _, _, _ => by simp [Value.isPlain] at h
  | .anyConfigs _, h, _, _, _, _, _ => by simp [Value.isPlain] at h
theorem parseSeq_emit :
    ∀ xs : List Value, Value.isPlainList xs = true → xs ≠ [] →
      ∀ items, emitSeq xs = some items → ∀ fuel rest,
        (emitItems ']' items).length ≤ fuel →
        parseSeq fuel (emitItems ']' items ++ rest) = some (Value.decodedList xs, rest)
  | [], _, hne, _, _, _, _, _ => absurd rfl hne
  | x :: xs, h, _, items, hitems, fuel, rest, hlen => by
    simp only [Value.isPlainList, Bool.and_eq_true] at h
    obtain ⟨tx, htx, -, -⟩ := emit_plain x h.1
    obtain ⟨ts, hts, -⟩ := emitSeq_plain xs h.2
    rw [emitSeq_cons, htx, hts] at hitems
    cases hitems
    have hx := parse_emit x h.1 tx htx
    have hxs := parseSeq_emit xs h.2
    simp only [Value.decodedList]
    cases ts with
    | nil =>
      have hnil : xs = [] := emitSeq_eq_nil hts
      subst hnil
      rw [emitItems_singleton] at hlen ⊢
      simp only [List.length_append, List.length_cons, List.length_nil] at hlen
      cases fuel with
      | zero => omega
      | succ f =>
        have htext : tx ++ [']'] ++ rest = tx ++ ']' :: rest := by simp
        rw [htext]
        exact parseSeq_last f _ rest x.decoded (hx f (']' :: rest) (by omega))
    | cons ty ts' =>
      have hne : xs ≠ [] := by
        intro hnil
        subst hnil
        cases hts
      rw [emitItems_cons_cons] at hlen ⊢
      simp only [List.length_append, List.length_cons] at hlen
      cases fuel with
      | zero => omega
      | succ f =>
        have htext : tx ++ ',' :: emitItems ']' (ty :: ts') ++ rest =
            tx ++ ',' :: (emitItems ']' (ty :: ts') ++ rest) := by simp
        rw [htext, parseSeq_more f _ _ x.decoded (hx f _ (by omega)),
          hxs hne (ty :: ts') hts f rest (by omega)]
theorem parseMap_emit :
    ∀ kvs : List (String × Value), Value.isPlainEntries kvs = true → kvs ≠ [] →
      ∀ items, emitStr kvs = some items → ∀ fuel rest acc,
        (emitItems rbrace items).length ≤ fuel →
        (∀ k ∈ kvs.map Prod.fst, ∀ kv ∈ acc, kv.1.isKey k = false) →
        parseMap fuel (emitItems rbrace items ++ rest) acc =
          some (acc ++ Value.decodedEntries kvs, rest)
  | [], _, hne, _, _, _, _, _, _, _ => absurd rfl hne
  | (k, v) :: kvs, h, _, items, hitems, fuel, rest, acc, hlen, hacc => by
    simp only [Value.isPlainEntries, Bool.and_eq_true, Bool.not_eq_true'] at h
    obtain ⟨tv, htv, -, -⟩ := emit_plain v h.1.2
    obtain ⟨ts, hts, -⟩ := emitStr_plain kvs h.2
    rw [emitStr_cons, htv, hts] at hitems
    cases hitems
    have hv := parse_emit v h.1.2 tv htv
    have hkvs := parseMap_emit kvs h.2
    have hset : MapAny.set acc k v.decoded = acc ++ [(.str k, v.decoded)] :=
      MapAny.set_of_fresh acc k _ (hacc k (by simp))
    have hklen := emitString_length k
    simp only [Value.decodedEntries]
    cases ts with
    | nil =>
      have hnil : kvs = [] := emitStr_eq_nil hts
      subst hnil
      rw [emitItems_singleton] at hlen ⊢
      simp only [List.length_append, List.length_cons, List.length_nil] at hlen
      cases fuel with
      | zero => omega
      | succ f =>
        cases f with
        | zero => omega
        | succ g =>
          have htext : emitString k ++ ':' :: tv ++ [rbrace] ++ rest =
              emitString k ++ ':' :: (tv ++ rbrace :: rest) := by simp
          have h1 := parse_emitString k g (':' :: (tv ++ rbrace :: rest))
          have h2 := hv (g + 1) (rbrace :: rest) (by omega)
          rw [htext, parseMap_last (g + 1) _ _ _ k v.decoded acc h1 h2, hset]
          rfl
    | cons ty ts' =>
      have hne : kvs ≠ [] := by
        intro hnil
        subst hnil
        cases hts
      rw [emitItems_cons_cons] at hlen ⊢
      simp only [List.length_append, List.length_cons] at hlen
      cases fuel with
      | zero => omega
      | succ f =>
        cases f with
        | zero => omega
        | succ g =>
          have htext : emitString k ++ ':' :: tv ++ ',' :: emitItems rbrace (ty :: ts') ++ rest =
              emitString k ++ ':' :: (tv ++ ',' :: (emitItems rbrace (ty :: ts') ++ rest)) := by
            simp
          have h1 := parse_emitString k g
            (':' :: (tv ++ ',' :: (emitItems rbrace (ty :: ts') ++ rest)))
          have h2 := hv (g + 1) (',' :: (emitItems rbrace (ty :: ts') ++ rest)) (by omega)
          have hfresh : ∀ k' ∈ kvs.map Prod.fst, ∀ kv ∈ acc ++ [(Value.str k, v.decoded)],
              kv.1.isKey k' = false := by
            intro k' hk' kv hkv
            rcases List.mem_append.mp hkv with hkv | hkv
            · exact hacc k' (List.mem_cons_of_mem _ hk') kv hkv
            · rw [List.mem_singleton] at hkv
              subst hkv
              have hkk : k ≠ k' := by
                intro hkk
                subst hkk
                have hcontains := h.1.1.2
                simp [hk'] at hcontains
              simp [Value.isKey, hkk]
          rw [htext, parseMap_more (g + 1) _ _ _ k v.decoded acc h1 h2, hset,
            hkvs hne (ty :: ts') hts (g + 1) rest _ (by omega) hfresh]
          simp
end

end refYaml

theorem Value.unescapedList_eq_map (xs : List Value) :
    Value.unescapedList xs = xs.map Value.unescaped := by
  induction xs with
  | nil => rfl
  | cons x xs ih => simp [Value.unescapedList, ih]

theorem Value.decodedList_eq_map (xs : List Value) :
    Value.decodedList xs = xs.map Value.decoded := by
  induction xs with
  | nil => rfl
  | cons x xs ih => simp [Value.decodedList, ih]

theorem Value.unescapedEntries_eq_map (kvs : List (String × Value)) :
    Value.unescapedEntries kvs = kvs.map fun kv => (kv.1, kv.2.unescaped) := by
  induction kvs with
  | nil => rfl
  | cons kv kvs ih =>
    obtain ⟨k, v⟩ := kv
    simp [Value.unescapedEntries, ih]

theorem Value.isPlainList_mem {xs : List Value} (h : Value.isPlainList xs = true)
    {x : Value} (hx : x ∈ xs) : x.isPlain = true := by
  induction xs with
  | nil => exact absurd hx (List.not_mem_nil _)
  | cons y ys ih =>
    simp only [Value.isPlainList, Bool.and_eq_true] at h
    rcases List.mem_cons.mp hx with rfl | hx
    · exact h.1
    · exact ih h.2 hx

theorem MapStr.get?_plain {kvs : List (String × Value)}
    (h : Value.isPlainEntries kvs = true) {k : String} {child : Value}
    (hget : MapStr.get? kvs k = some child) : child.isPlain = true := by
  induction kvs with
  | nil => simp [MapStr.get?] at hget
  | cons kv rest ih =>
    obtain ⟨k', v'⟩ := kv
    simp only [Value.isPlainEntries, Bool.and_eq_true] at h
    simp only [MapStr.get?] at hget
    by_cases hk : (k' == k) = true
    · rw [if_pos hk] at hget
      cases hget
      exact h.1.2
    · rw [if_neg hk] at hget
      exact ih h.2 hget

theorem MapStr.get?_map (f : Value → Value) (kvs : List (String × Value)) (k : String) :
    MapStr.get? (kvs.map fun kv => (kv.1, f kv.2)) k = (MapStr.get? kvs k).map f := by
  induction kvs with
  | nil => rfl
  | cons kv rest ih =>
    obtain ⟨k', v'⟩ := kv
    simp only [List.map_cons, MapStr.get?]
    by_cases hk : (k' == k) = true
    · rw [if_pos hk, if_pos hk]
      rfl
    · rw [if_neg hk, if_neg hk]
      exact ih

theorem MapAny.get?_decodedEntries (kvs : List (String × Value)) (k : String) :
    MapAny.get? (Value.decodedEntries kvs) k = (MapStr.get? kvs k).map Value.decoded := by
  induction kvs with
  | nil => rfl
  | cons kv rest ih =>
    obtain ⟨k', v'⟩ := kv
    simp only [Value.decodedEntries, MapAny.get?, MapStr.get?, Value.isKey]
    by_cases hk : (k' == k) = true
    · rw [if_pos hk, if_pos hk]
      rfl
    · rw [if_neg hk, if_neg hk]
      exact ih

/-- A lookup in the normalized and decoded document is the normalized and decoded result of
the lookup in the document. -/
theorem Value.get?_unescaped_decoded {v : Value} (h : v.isPlain = true) (k : String) :
    v.unescaped.decoded.get? k = (v.get? k).map fun c => c.unescaped.decoded := by
  cases v with
  | mapStr kvs =>
    simp only [Value.unescaped, Value.decoded, Value.get?]
    rw [MapAny.get?_decodedEntries, Value.unescapedEntries_eq_map, MapStr.get?_map,
      Option.map_map]
    rfl
  | null => rfl
  | bool b => rfl
  | str s => rfl
  | seq xs => rfl
  | int n => simp [Value.isPlain] at h
  | duration d => simp [Value.isPlain] at h
  | labelSelector s => simp [Value.isPlain] at h
  | labelSelectorPtr p => simp [Value.isPlain] at h
  | mapAny kvs => simp [Value.isPlain] at h
  | anyConfigs xs => simp [Value.isPlain] at h

theorem Value.get?_child_plain {v : Value} (h : v.isPlain = true) {k : String} {child : Value}
    (hget : v.get? k = some child) : child.isPlain = true := by
  cases v with
  | mapStr kvs =>
    simp only [Value.isPlain] at h
    exact MapStr.get?_plain h hget
  | null => simp [Value.get?] at hget
  | bool b => simp [Value.get?] at hget
  | str s => simp [Value.get?] at hget
  | seq xs => simp [Value.get?] at hget
  | int n => simp [Value.isPlain] at h
  | duration d => simp [Value.isPlain] at h
  | labelSelector s => simp [Value.isPlain] at h
  | labelSelectorPtr p => simp [Value.isPlain] at h
  | mapAny kvs => simp [Value.isPlain] at h
  | anyConfigs xs => simp [Value.isPlain] at h

/-- What a path leads to in the normalized and decoded document is the normalized and
decoded value the path leads to in the document, and it is plain. -/
theorem Value.at?_unescaped_decoded (path : List String) :
    ∀ {v : Value}, v.isPlain = true → ∀ {c : Value}, v.at? path = some c →
      v.unescaped.decoded.at? path = some c.unescaped.decoded ∧ c.isPlain = true := by
  induction path with
  | nil =>
    intro v h c hc
    simp only [Value.at?, Option.some.injEq] at hc
    subst hc
    exact ⟨rfl, h⟩
  | cons k ks ih =>
    intro v h c hc
    simp only [Value.at?] at hc ⊢
    rw [Value.get?_unescaped_decoded h]
    cases hget : v.get? k with
    | none => simp [hget] at hc
    | some child =>
      rw [hget] at hc
      exact ih (Value.get?_child_plain h hget) hc

namespace refYaml

theorem stringKeys_decodedEntries (es : List (String × Value)) :
    stringKeys (Value.decodedEntries es) = some (es.map fun kv => (kv.1, kv.2.decoded)) := by
  induction es with
  | nil => rfl
  | cons kv rest ih =>
    obtain ⟨k, v⟩ := kv
    simp [Value.decodedEntries, stringKeys, ih]

/-- The text of a plain document is read back as the decoded document. -/
theorem Unmarshal_emit {v : Value} (h : v.isPlain = true) {t : List Char}
    (ht : emit v = some t) : Unmarshal (String.mk t) = .ok v.decoded := by
  have hp := parse_emit v h t ht (t.length + 1) [] (Nat.le_succ _)
  rw [List.append_nil] at hp
  show (match parse (t.length + 1) t with
    | some (v, []) => Except.ok v
    | _ => Except.error unsupported) = _
  rw [hp]

/-- A normalized and decoded scrape job is marshalled and read back as its entry. -/
theorem entry_roundtrip {kvs : List (String × Value)} (h : Value.isPlainEntries kvs = true) :
    ∃ text, Marshal (Value.mapStr kvs).unescaped.decoded = .ok text ∧
      UnmarshalStringMap text = .ok (Value.extracted (.mapStr kvs)).Object := by
  have hplain : (Value.mapStr kvs).unescaped.isPlain = true :=
    Value.isPlain_unescaped (.mapStr kvs) h
  obtain ⟨t, ht, -, -⟩ := emit_plain _ hplain
  refine ⟨String.mk t, ?_, ?_⟩
  · simp only [Marshal]
    rw [emit_decoded _ hplain, ht]
  · simp only [UnmarshalStringMap]
    rw [Unmarshal_emit hplain ht]
    simp only [Value.unescaped, Value.decoded, stringKeys_decodedEntries]
    rfl

end refYaml

namespace targetallocator

/-- The loop on normalized and decoded scrape jobs returns their entries. -/
theorem getScrapeConfigs.loop_plain :
    ∀ jobs : List Value, Value.isPlainList jobs = true →
      (∀ job ∈ jobs, ∃ kvs, job = Value.mapStr kvs) →
      getScrapeConfigs.loop refYaml.lib (Value.decodedList (Value.unescapedList jobs)) =
        .ok (jobs.map Value.extracted)
  | [], _, _ => rfl
  | job :: jobs, h, hmaps => by
    simp only [Value.isPlainList, Bool.and_eq_true] at h
    obtain ⟨kvs, rfl⟩ := hmaps job (List.mem_cons_self _ _)
    obtain ⟨text, hm, hu⟩ := refYaml.entry_roundtrip h.1
    have ih := getScrapeConfigs.loop_plain jobs h.2
      fun job hjob => hmaps job (List.mem_cons_of_mem _ hjob)
    simp only [Value.unescapedList, Value.decodedList, getScrapeConfigs.loop, List.map_cons]
    have hm' : refYaml.lib.Marshal (Value.mapStr kvs).unescaped.decoded = .ok text := hm
    have hu' : refYaml.lib.UnmarshalStringMap text =
        .ok (Value.extracted (.mapStr kvs)).Object := hu
    rw [hm']
    simp only [hu', ih]
    rfl

/-- The extractor on the text of a plain agent configuration returns the entries of its
scrape jobs. -/
theorem getScrapeConfigs_plain (receivers : List (String × Value)) (jobs : List Value)
    (hplain : Value.isPlainEntries receivers = true)
    (hjobs : (Value.mapStr receivers).at? ["prometheus", "config", "scrape_configs"] =
      some (.seq jobs))
    (hmaps : ∀ job ∈ jobs, ∃ kvs, job = Value.mapStr kvs) :
    ∃ text, refEnv.ConfigYaml ⟨.mk receivers⟩ = .ok text ∧
      getScrapeConfigs refYaml.lib (adapters.fromSpec refYaml.lib) text =
        .ok (jobs.map Value.extracted) := by
  have hdoc : (Value.mapStr [("receivers", .mapStr receivers)]).isPlain = true := by
    simp only [Value.isPlain, Value.isPlainEntries, hplain, Bool.and_true]
    rfl
  obtain ⟨t, ht, -, -⟩ := refYaml.emit_plain _ hdoc
  refine ⟨String.mk t, ?_, ?_⟩
  · show refYaml.Marshal (.mapStr [("receivers", .mapStr receivers)]) = _
    simp only [refYaml.Marshal, ht]
  · have hat : (Value.mapStr [("receivers", .mapStr receivers)]).at? adapters.scrapeConfigsPath =
        some (.seq jobs) := hjobs
    obtain ⟨hat', hseq⟩ := Value.at?_unescaped_decoded _ hdoc hat
    have hun : refYaml.lib.Unmarshal (adapters.unescapeText (String.mk t)) =
        .ok (Value.mapStr [("receivers", .mapStr receivers)]).unescaped.decoded :=
      refYaml.Unmarshal_emit (Value.isPlain_unescaped _ hdoc) (refYaml.emit_unescaped _ hdoc t ht)
    rw [getScrapeConfigs_fromSpec, hun]
    simp only []
    rw [adapters.find_eq, hat']
    simp only [Value.unescaped, Value.decoded]
    exact getScrapeConfigs.loop_plain jobs (by simpa only [Value.isPlain] using hseq) hmaps

end targetallocator

namespace adapters

/-- The normalizer on a string reads a `$$1` as `$1`, whatever stands before and after. -/
theorem unescapeString_double_dollar (p q : String) :
    unescapeString (p ++ "$$1" ++ q) = unescapeString p ++ "$1" ++ unescapeString q := by
  apply String.ext
  simp only [unescapeString, String.data_append, List.append_assoc]
  exact unescape_double_dollar p.data q.data

end adapters

theorem Value.get?_mapStr (kvs : List (String × Value)) (k : String) :
    (Value.mapStr kvs).get? k = MapStr.get? kvs k := rfl

/-- A string `replacement` of a plain scrape job is the `replacement` at the same position of
its entry, normalized. -/
theorem Value.replacementAt_extracted {job : Value} (hplain : job.isPlain = true)
    (hmap : ∃ kvs, job = Value.mapStr kvs) (list : String) (i : Nat) {s : String}
    (h : job.replacementAt list i = some (.str s)) :
    (Value.extracted job).document.replacementAt list i =
      some (.str (adapters.unescapeString s)) := by
  obtain ⟨kvs, rfl⟩ := hmap
  simp only [Value.isPlain] at hplain
  simp only [Value.replacementAt, Value.get?_mapStr] at h
  simp only [Value.replacementAt, Value.extracted, AnyConfig.document, AnyConfig.Object,
    Value.get?_mapStr]
  rw [MapStr.get?_map, Value.unescapedEntries_eq_map, MapStr.get?_map]
  cases hget : MapStr.get? kvs list with
  | none => simp [hget] at h
  | some c =>
    have hc : c.isPlain = true := MapStr.get?_plain hplain hget
    rw [hget] at h
    cases c with
    | seq rules =>
      simp only [Value.isPlain] at hc
      simp only [Option.map_some', Value.unescaped, Value.decoded]
      rw [Value.decodedList_eq_map, Value.unescapedList_eq_map, List.map_map,
        List.getElem?_map]
      cases hrule : rules[i]? with
      | none => simp [hrule] at h
      | some rule =>
        have hr : rule.isPlain = true :=
          Value.isPlainList_mem hc (List.getElem?_mem hrule)
        simp only [hrule] at h
        simp only [Option.map_some', Function.comp_apply]
        rw [Value.get?_unescaped_decoded hr, h]
        rfl
    | null => simp at h
    | bool b => simp at h
    | str s => simp at h
    | int n => simp at h
    | duration d => simp at h
    | labelSelector s => simp at h
    | labelSelectorPtr p => simp at h
    | mapAny kvs => simp at h
    | mapStr kvs => simp at h
    | anyConfigs xs => simp at h

/-- C7: in the reference environment, over the adapters of the specification: for every
agent configuration that is a plain document whose scrape jobs are mappings, the
configuration has a text and `getScrapeConfigs` on that text returns one entry per scrape
job, in order, each the job with its strings normalized once. In particular a `replacement`
that contains `$$1` is, at the same rule of the same list of the same entry, the string with
`$1` in that place (what stands before and after being normalized as well), and a
`replacement` that is the single-dollar `$1` is `$1` at that position of the entry. -/
theorem C7_one_level_of_dollar_unescaping (config : v1beta1.Config) (jobs : List Value)
    (hplain : Value.isPlainEntries config.Receivers.Object = true)
    (hjobs : config.Receivers.document.at? ["prometheus", "config", "scrape_configs"] =
      some (.seq jobs))
    (hmaps : ∀ job ∈ jobs, ∃ kvs, job = Value.mapStr kvs) :
    ∃ text entries,
      refEnv.ConfigYaml config = .ok text ∧
      targetallocator.getScrapeConfigs refYaml.lib (adapters.fromSpec refYaml.lib) text =
        .ok entries ∧
      entries = jobs.map Value.extracted ∧
      ∀ (j : Nat) (job : Value) (list : String) (i : Nat), jobs[j]? = some job →
        ∃ entry, entries[j]? = some entry ∧
          (∀ p q : String, job.replacementAt list i = some (.str (p ++ "$$1" ++ q)) →
            entry.document.replacementAt list i =
              some (.str (adapters.unescapeString p ++ "$1" ++ adapters.unescapeString q))) ∧
          (job.replacementAt list i = some (.str "$1") →
            entry.document.replacementAt list i = some (.str "$1")) := by
  obtain ⟨⟨receivers⟩⟩ := config
  obtain ⟨text, htext, hget⟩ :=
    targetallocator.getScrapeConfigs_plain receivers jobs hplain hjobs hmaps
  refine ⟨text, jobs.map Value.extracted, htext, hget, rfl, ?_⟩
  intro j job list i hj
  have hjob : job ∈ jobs := List.getElem?_mem hj
  have hseq : Value.isPlainList jobs = true := by
    have h := (Value.at?_unescaped_decoded _ (v := Value.mapStr receivers)
      (by simpa only [Value.isPlain] using hplain) hjobs).2
    simpa only [Value.isPlain] using h
  have hjplain : job.isPlain = true := Value.isPlainList_mem hseq hjob
  refine ⟨Value.extracted job, by rw [List.getElem?_map, hj]; rfl, ?_, ?_⟩
  · intro p q h
    rw [Value.replacementAt_extracted hjplain (hmaps job hjob) list i h,
      adapters.unescapeString_double_dollar]
  · intro h
    rw [Value.replacementAt_extracted hjplain (hmaps job hjob) list i h]
    rfl

/-- C7 at the case `regex substitution` of `TestGetScrapeConfigs`: the configuration is a
plain document, the extractor returns the entry the test expects on its text, and the
`replacement` of the first rule of `metric_relabel_configs`, `$$1` in the job, is `$1` in the
entry. -/
theorem C7_witness :
    Value.isPlainEntries (Example.agentConfig [Example.regexJob "$$1"]).Receivers.Object = true ∧
    targetallocator.getScrapeConfigs refYaml.lib (adapters.fromSpec refYaml.lib)
      Example.regexText = .ok [Example.regexEntry] ∧
    (Example.regexJob "$$1").replacementAt "metric_relabel_configs" 0 = some (.str "$$1") ∧
    Example.regexEntry.document.replacementAt "metric_relabel_configs" 0 =
      some (.str "$1") := by
  have hplain :
      Value.isPlainEntries (Example.agentConfig [Example.regexJob "$$1"]).Receivers.Object =
        true := by rfl
  obtain ⟨text, entries, htext, hget, hentries, hpos⟩ :=
    C7_one_level_of_dollar_unescaping (Example.agentConfig [Example.regexJob "$$1"])
      [Example.regexJob "$$1"] hplain (by rfl)
      (fun job hjob => ⟨_, List.mem_singleton.mp hjob⟩)
  have htext' : Example.regexText = text := by
    simp only [Example.regexText, Example.configText, htext]
  have hentries' : entries = [Example.regexEntry] := by
    rw [hentries]
    rfl
  obtain ⟨entry, hentry, hdouble, -⟩ :=
    hpos 0 (Example.regexJob "$$1") "metric_relabel_configs" 0 rfl
  rw [hentries'] at hentry
  cases hentry
  exact ⟨hplain, by rw [htext', hget, hentries'], by rfl, hdouble "" "" (by rfl)⟩

/-- C8: when an agent is supplied, its configuration has a text, and `getScrapeConfigs`
fails on that text, `ConfigMap` returns a nil config map together with that same error,
whatever the rest of the spec is. -/
theorem C8_extraction_error_fails_ConfigMap (E : Env) (params : targetallocator.Params)
    (c : v1beta1.OpenTelemetryCollector) (collectorConfigStr : String) (err : Error)
    (hcollector : params.Collector = some c)
    (hyaml : E.ConfigYaml c.Spec.Config = .ok collectorConfigStr)
    (hextract : targetallocator.getScrapeConfigs E.yaml E.adapters collectorConfigStr =
      .error err) :
    targetallocator.ConfigMap E params = .returns (none, some err) := by
  have hsc : targetallocator.scrapeConfigs E params = .error err := by
    rw [targetallocator.scrapeConfigs_eq]
    simp [targetallocator.extractedScrapeConfigs, hcollector, hyaml, hextract]
  simp [targetallocator.ConfigMap, targetallocator.taConfig, hsc]

/-- C8 at the call `Example.paramsNoConfig`, whose agent configuration lacks the key
`config` under `prometheus` while the spec has an explicit scrape config, a strategy and
discovery enabled. -/
theorem C8_witness :
    targetallocator.ConfigMap refEnv Example.paramsNoConfig =
      .returns (none, some ⟨"no scrape_configs available as part of the configuration"⟩) :=
  C8_extraction_error_fails_ConfigMap refEnv Example.paramsNoConfig
    (Example.collector Example.agentConfigNoConfig)
    (Example.configText Example.agentConfigNoConfig)
    ⟨"no scrape_configs available as part of the configuration"⟩ rfl (by rfl) (by rfl)

/-! ## The cross-version adapter -/

/-- C9: `TargetAllocatorPrometheusCR` keeps the nil-ness of both selectors: the converted
selector is nil if and only if the old label map is nil, a map that is not nil (empty
included) becomes a selector whose `MatchLabels` is that map and whose `MatchExpressions`
is empty, and `Enabled` and `ScrapeInterval` are copied. -/
theorem C9_selectors_keep_nilness (promCR : v1alpha1.OpenTelemetryTargetAllocatorPrometheusCR) :
    ((collector.TargetAllocatorPrometheusCR promCR).ServiceMonitorSelector = none ↔
      promCR.ServiceMonitorSelector = none) ∧
    (∀ labels, promCR.ServiceMonitorSelector = some labels →
      (collector.TargetAllocatorPrometheusCR promCR).ServiceMonitorSelector =
        some { MatchLabels := some labels, MatchExpressions := [] }) ∧
    ((collector.TargetAllocatorPrometheusCR promCR).PodMonitorSelector = none ↔
      promCR.PodMonitorSelector = none) ∧
    (∀ labels, promCR.PodMonitorSelector = some labels →
      (collector.TargetAllocatorPrometheusCR promCR).PodMonitorSelector =
        some { MatchLabels := some labels, MatchExpressions := [] }) ∧
    (collector.TargetAllocatorPrometheusCR promCR).Enabled = promCR.Enabled ∧
    (collector.TargetAllocatorPrometheusCR promCR).ScrapeInterval = promCR.ScrapeInterval := by
  cases hs : promCR.ServiceMonitorSelector <;> cases hp : promCR.PodMonitorSelector <;>
    simp [collector.TargetAllocatorPrometheusCR, hs, hp]

/-! ## Key types of the extracted entries -/

/-- C10 as stated fails: on the case `one scrape config` of `TestGetScrapeConfigs`,
extraction succeeds with the entry the test expects, and the mappings nested in that entry
(the elements of `relabel_configs` and `static_configs`) are of type
`map[interface{}]interface{}`, not keyed by text. -/
theorem C10_counterexample :
    targetallocator.getScrapeConfigs refYaml.lib (adapters.fromSpec refYaml.lib)
        (Example.configText (Example.agentConfig [Example.relabelJob])) =
      .ok [Example.relabelEntry] ∧
    Example.relabelEntry.textKeyed = false ∧
    MapStr.get? Example.relabelEntry.Object "static_configs" =
      some (.seq [.mapAny [(.str "targets", .seq [.str "0.0.0.0:8888"])]]) :=
  ⟨by rfl, by rfl, by rfl⟩

/-- C10, amended: for every agent configuration on which extraction succeeds, every
returned entry is keyed by text at its top level, being the `map[string]any` into which
the marshalled element at the same position of the extracted sequence was unmarshalled;
mappings nested inside an entry keep the key type the decoder gives them. -/
theorem C10_entries_are_text_keyed_at_top_level (Y : Yaml) (A : Adapters)
    (otelcolConfig : String) (entries : List AnyConfig)
    (hok : targetallocator.getScrapeConfigs Y A otelcolConfig = .ok entries) :
    ∃ prometheusReceiverConfig scrapeConfigs,
      A.UnescapeDollarSignsInPromConfig otelcolConfig = .ok prometheusReceiverConfig ∧
      A.GetScrapeConfigsFromPromConfig prometheusReceiverConfig = .ok scrapeConfigs ∧
      List.Forall₂ (fun config entry => ∃ marshaled newConfig,
        Y.Marshal config = .ok marshaled ∧
        Y.UnmarshalStringMap marshaled = .ok newConfig ∧
        entry = AnyConfig.mk newConfig) scrapeConfigs entries := by
  unfold targetallocator.getScrapeConfigs at hok
  cases hu : A.UnescapeDollarSignsInPromConfig otelcolConfig with
  | error err => simp [hu] at hok
  | ok prometheusReceiverConfig =>
    cases hg : A.GetScrapeConfigsFromPromConfig prometheusReceiverConfig with
    | error err => simp [hu, hg] at hok
    | ok scrapeConfigs =>
      simp only [hu, hg] at hok
      refine ⟨prometheusReceiverConfig, scrapeConfigs, rfl, hg, ?_⟩
      refine (targetallocator.getScrapeConfigs.loop_ok Y hok).imp ?_
      rintro config ⟨newConfig⟩ ⟨marshaled, hm, hum⟩
      exact ⟨marshaled, newConfig, hm, hum, rfl⟩

/-- C10, amended, at the case `one scrape config` of `TestGetScrapeConfigs`. -/
theorem C10_witness :
    ∃ prometheusReceiverConfig scrapeConfigs,
      (adapters.fromSpec refYaml.lib).UnescapeDollarSignsInPromConfig
        (Example.configText (Example.agentConfig [Example.relabelJob])) =
          .ok prometheusReceiverConfig ∧
      (adapters.fromSpec refYaml.lib).GetScrapeConfigsFromPromConfig prometheusReceiverConfig =
        .ok scrapeConfigs ∧
      List.Forall₂ (fun config entry => ∃ marshaled newConfig,
        refYaml.lib.Marshal config = .ok marshaled ∧
        refYaml.lib.UnmarshalStringMap marshaled = .ok newConfig ∧
        entry = AnyConfig.mk newConfig) scrapeConfigs [Example.relabelEntry] :=
  C10_entries_are_text_keyed_at_top_level refYaml.lib (adapters.fromSpec refYaml.lib)
    (Example.configText (Example.agentConfig [Example.relabelJob])) [Example.relabelEntry]
    (by rfl)

/-! ## The two extraction call sites -/

namespace collector

/-- The loop of the cross-version adapter returns the extracted entries as they are. -/
theorem getScrapeConfigs.loop_eq (scrapeConfigs : List Value) :
    getScrapeConfigs.loop scrapeConfigs = scrapeConfigs := by
  induction scrapeConfigs with
  | nil => rfl
  | cons config rest ih => simp [getScrapeConfigs.loop, ih]

/-- The cross-version adapter's extraction is the two adapter steps and nothing else. -/
theorem getScrapeConfigs_eq (A : Adapters) (otelcolConfig : String) :
    getScrapeConfigs A otelcolConfig =
      match A.UnescapeDollarSignsInPromConfig otelcolConfig with
      | .error err => .error err
      | .ok prometheusReceiverConfig => A.GetScrapeConfigsFromPromConfig prometheusReceiverConfig := by
  unfold getScrapeConfigs
  cases A.UnescapeDollarSignsInPromConfig otelcolConfig with
  | error err => rfl
  | ok cfg =>
    simp only
    cases A.GetScrapeConfigsFromPromConfig cfg with
    | error err => rfl
    | ok l => simp [getScrapeConfigs.loop_eq]

end collector

/-- The manifest builder's extraction is the cross-version adapter's extraction followed by
the normalization loop. -/
theorem targetallocator.getScrapeConfigs_eq_collector (Y : Yaml) (A : Adapters)
    (otelcolConfig : String) :
    targetallocator.getScrapeConfigs Y A otelcolConfig =
      match collector.getScrapeConfigs A otelcolConfig with
      | .error err => .error err
      | .ok scrapeConfigs => targetallocator.getScrapeConfigs.loop Y scrapeConfigs := by
  rw [collector.getScrapeConfigs_eq]
  unfold targetallocator.getScrapeConfigs
  cases A.UnescapeDollarSignsInPromConfig otelcolConfig with
  | error err => rfl
  | ok cfg =>
    simp only
    cases A.GetScrapeConfigsFromPromConfig cfg <;> rfl

/-- C11 as stated fails: on the case `one scrape config` of `TestGetScrapeConfigs` both
call sites succeed with one entry, but the entries are not the same document: the
cross-version adapter returns the extracted mapping as it was parsed, of type
`map[interface{}]interface{}`, while the manifest builder returns it with text keys at the
top level; the adapter's entry has not passed through the key normalization. -/
theorem C11_counterexample :
    collector.getScrapeConfigs (adapters.fromSpec refYaml.lib)
        (Example.configText (Example.agentConfig [Example.relabelJob])) =
      .ok [Example.relabelDocument] ∧
    targetallocator.getScrapeConfigs refYaml.lib (adapters.fromSpec refYaml.lib)
        (Example.configText (Example.agentConfig [Example.relabelJob])) =
      .ok [Example.relabelEntry] ∧
    Example.relabelEntry.document ≠ Example.relabelDocument :=
  ⟨by rfl, by rfl, fun h => Value.noConfusion h⟩

/-- C11, amended: the two call sites share the escape-normalize and navigate steps and
differ in the key normalization. For every agent configuration text, if the cross-version
adapter's extraction fails, the manifest builder's fails with the same error; if the
manifest builder's succeeds, so does the adapter's; and when both succeed the lists have
equal length, the adapter's list is the extracted sequence unchanged, and the i-th entry of
the builder's list is the i-th entry of the adapter's list marshalled and unmarshalled
into a `map[string]any`. -/
theorem C11_call_sites_share_unescape_and_navigation (Y : Yaml) (A : Adapters)
    (otelcolConfig : String) :
    (∀ err, collector.getScrapeConfigs A otelcolConfig = .error err →
      targetallocator.getScrapeConfigs Y A otelcolConfig = .error err) ∧
    (∀ entries, targetallocator.getScrapeConfigs Y A otelcolConfig = .ok entries →
      ∃ prometheusReceiverConfig scrapeConfigs,
        A.UnescapeDollarSignsInPromConfig otelcolConfig = .ok prometheusReceiverConfig ∧
        A.GetScrapeConfigsFromPromConfig prometheusReceiverConfig = .ok scrapeConfigs ∧
        collector.getScrapeConfigs A otelcolConfig = .ok scrapeConfigs ∧
        scrapeConfigs.length = entries.length ∧
        List.Forall₂ (fun config entry => ∃ marshaled newConfig,
          Y.Marshal config = .ok marshaled ∧
          Y.UnmarshalStringMap marshaled = .ok newConfig ∧
          entry = AnyConfig.mk newConfig) scrapeConfigs entries) := by
  constructor
  · intro err herr
    rw [targetallocator.getScrapeConfigs_eq_collector, herr]
  · intro entries hok
    rw [targetallocator.getScrapeConfigs_eq_collector] at hok
    have hc := collector.getScrapeConfigs_eq A otelcolConfig
    cases hu : A.UnescapeDollarSignsInPromConfig otelcolConfig with
    | error err => simp [hc, hu] at hok
    | ok cfg =>
      simp only [hu] at hc
      cases hg : A.GetScrapeConfigsFromPromConfig cfg with
      | error err => simp [hc, hg] at hok
      | ok scrapeConfigs =>
        rw [hg] at hc
        simp only [hc] at hok
        have hall := targetallocator.getScrapeConfigs.loop_ok Y hok
        refine ⟨cfg, scrapeConfigs, rfl, hg, hc, hall.length_eq, hall.imp ?_⟩
        rintro config ⟨newConfig⟩ ⟨marshaled, hm, hum⟩
        exact ⟨marshaled, newConfig, hm, hum, rfl⟩

/-! ## The remaining keys of the synthesized document -/

/-- C12: on every input on which `ConfigMap` succeeds, the synthesized document has the key
`filter_strategy`, and its value is the `FilterStrategy` of the spec as it is, the empty
strategy included. -/
theorem C12_filter_strategy_verbatim (E : Env) (params : targetallocator.Params)
    (cm : corev1.ConfigMap)
    (hok : targetallocator.ConfigMap E params = .returns (some cm, none)) :
    ∃ doc, targetallocator.Synthesized E params cm doc ∧
      doc.hasKey "filter_strategy" = true ∧
      doc.get? "filter_strategy" = some (.str params.TargetAllocator.Spec.FilterStrategy) := by
  obtain ⟨doc, hdoc⟩ := targetallocator.ConfigMap_ok hok
  obtain ⟨l, -, -, -, -, hfilter, -⟩ := targetallocator.taConfig_returns_ok hdoc.1
  exact ⟨doc, hdoc, by simp [Value.hasKey, hfilter], hfilter⟩

/-- C12 at the call `Example.paramsNoAgent`, whose filter strategy is empty. -/
theorem C12_witness :
    ∃ doc,
      targetallocator.Synthesized refEnv Example.paramsNoAgent
        (Example.returned Example.paramsNoAgent) doc ∧
      doc.get? "filter_strategy" = some (.str "") := by
  obtain ⟨doc, hdoc, -, hfilter⟩ :=
    C12_filter_strategy_verbatim refEnv Example.paramsNoAgent
      (Example.returned Example.paramsNoAgent) (by rfl)
  exact ⟨doc, hdoc, hfilter⟩

/-- C13: for every spec with discovery enabled on which `ConfigMap` succeeds, the
`prometheus_cr` block has both keys `service_monitor_selector` and `pod_monitor_selector`,
each holding the selector pointer of the spec: the configured selector when one is set,
and the nil pointer, which YAML writes as `null`, when it is unset. -/
theorem C13_selector_keys_always_present (E : Env) (params : targetallocator.Params)
    (cm : corev1.ConfigMap)
    (hok : targetallocator.ConfigMap E params = .returns (some cm, none))
    (henabled : params.TargetAllocator.Spec.PrometheusCR.Enabled = true) :
    ∃ doc cr, targetallocator.Synthesized E params cm doc ∧
      doc.get? "prometheus_cr" = some cr ∧
      cr.hasKey "service_monitor_selector" = true ∧
      cr.hasKey "pod_monitor_selector" = true ∧
      (∀ s, params.TargetAllocator.Spec.PrometheusCR.ServiceMonitorSelector = some s →
        cr.get? "service_monitor_selector" = some (.labelSelectorPtr (some s))) ∧
      (params.TargetAllocator.Spec.PrometheusCR.ServiceMonitorSelector = none →
        cr.get? "service_monitor_selector" = some (.labelSelectorPtr none)) ∧
      (∀ s, params.TargetAllocator.Spec.PrometheusCR.PodMonitorSelector = some s →
        cr.get? "pod_monitor_selector" = some (.labelSelectorPtr (some s))) ∧
      (params.TargetAllocator.Spec.PrometheusCR.PodMonitorSelector = none →
        cr.get? "pod_monitor_selector" = some (.labelSelectorPtr none)) := by
  obtain ⟨doc, hdoc⟩ := targetallocator.ConfigMap_ok hok
  obtain ⟨l, -, -, -, -, -, cr, hcr, hget⟩ := targetallocator.taConfig_returns_ok hdoc.1
  obtain ⟨cr', hcr', -, -, hservice, hpod⟩ :=
    targetallocator.prometheusCRConfig_returns params.TargetAllocator.Spec
  rw [hcr] at hcr'
  injection hcr' with hcr'
  subst hcr'
  simp only [henabled, if_true] at hget
  refine ⟨doc, .mapAny cr, hdoc, hget, ?_, ?_, ?_, ?_, ?_, ?_⟩
  · simp [Value.hasKey, Value.get?, hservice]
  · simp [Value.hasKey, Value.get?, hpod]
  · intro s hs
    simp [Value.get?, hservice, hs]
  · intro hs
    simp [Value.get?, hservice, hs]
  · intro s hs
    simp [Value.get?, hpod, hs]
  · intro hs
    simp [Value.get?, hpod, hs]

/-- C13 at the call `Example.paramsSelectors`: the service monitor selector is the one
configured, the pod monitor selector is the nil pointer, written as `null`. -/
theorem C13_witness :
    (∃ doc cr,
      targetallocator.Synthesized refEnv Example.paramsSelectors
        (Example.returned Example.paramsSelectors) doc ∧
      doc.get? "prometheus_cr" = some cr ∧
      cr.get? "service_monitor_selector" =
        some (.labelSelectorPtr (some Example.releaseSelector)) ∧
      cr.get? "pod_monitor_selector" = some (.labelSelectorPtr none)) ∧
    refYaml.Marshal (.labelSelectorPtr none) = .ok "null" := by
  obtain ⟨doc, cr, hdoc, hcr, -, -, hservice, -, -, hpod⟩ :=
    C13_selector_keys_always_present refEnv Example.paramsSelectors
      (Example.returned Example.paramsSelectors) (by rfl) rfl
  exact ⟨⟨doc, cr, hdoc, hcr, hservice _ rfl, hpod rfl⟩, by rfl⟩

/-- C14: on every input on which `ConfigMap` succeeds, the synthesized document has the
top-level key `collector_selector` if and only if an agent is supplied, and then its value
is a selector whose match labels are the selector labels of the agent and whose match
expressions are empty. -/
theorem C14_collector_selector_iff_agent (E : Env) (params : targetallocator.Params)
    (cm : corev1.ConfigMap)
    (hok : targetallocator.ConfigMap E params = .returns (some cm, none)) :
    ∃ doc, targetallocator.Synthesized E params cm doc ∧
      (doc.hasKey "collector_selector" = true ↔ params.Collector ≠ none) ∧
      (∀ c, params.Collector = some c →
        doc.get? "collector_selector" = some (.labelSelector
          { MatchLabels :=
              E.SelectorLabels c.ObjectMeta targetallocator.ComponentOpenTelemetryCollector
            MatchExpressions := [] })) := by
  obtain ⟨doc, hdoc⟩ := targetallocator.ConfigMap_ok hok
  obtain ⟨l, -, hsel, -⟩ := targetallocator.taConfig_returns_ok hdoc.1
  refine ⟨doc, hdoc, ?_, ?_⟩
  · cases hc : params.Collector <;> simp [Value.hasKey, hsel, hc]
  · intro c hc
    simp [hsel, hc]

/-- C14 at the call `Example.params`: the selector carries the four labels
`TestDesiredConfigMap` expects. -/
theorem C14_witness :
    ∃ doc,
      targetallocator.Synthesized refEnv Example.params (Example.returned Example.params) doc ∧
      doc.get? "collector_selector" = some (.labelSelector
        { MatchLabels := some
            [("app.kubernetes.io/component", "opentelemetry-collector"),
             ("app.kubernetes.io/instance", "default.my-instance"),
             ("app.kubernetes.io/managed-by", "opentelemetry-operator"),
             ("app.kubernetes.io/part-of", "opentelemetry")]
          MatchExpressions := [] }) := by
  obtain ⟨doc, hdoc, -, hsel⟩ :=
    C14_collector_selector_iff_agent refEnv Example.params (Example.returned Example.params)
      (by rfl)
  exact ⟨doc, hdoc, hsel _ rfl⟩

/-- An assignment adds no key but its own. -/
theorem MapAny.forall_keys_set {P : Value → Prop} {m : List (Value × Value)} {k : String}
    {v : Value} (hm : ∀ kv ∈ m, P kv.1) (hk : P (.str k)) :
    ∀ kv ∈ MapAny.set m k v, P kv.1 := by
  induction m with
  | nil =>
    intro kv hkv
    simp only [MapAny.set, List.mem_singleton] at hkv
    rw [hkv]
    exact hk
  | cons kv0 rest ih =>
    obtain ⟨k0, v0⟩ := kv0
    have h0 : P k0 := hm (k0, v0) (List.mem_cons_self _ _)
    have hrest : ∀ kv ∈ rest, P kv.1 := fun kv hkv => hm kv (List.mem_cons_of_mem _ hkv)
    intro kv hkv
    rw [MapAny.set] at hkv
    split at hkv
    · rcases List.mem_cons.mp hkv with h | h
      · subst h
        exact h0
      · exact hrest kv h
    · rcases List.mem_cons.mp hkv with h | h
      · subst h
        exact h0
      · exact ih hrest kv h

/-- The empty map has no key. -/
theorem MapAny.keysAmong_nil (allowed : List String) : (Value.mapAny []).keysAmong allowed :=
  fun _ hkv => absurd hkv (List.not_mem_nil _)

/-- An assignment under an allowed key keeps the keys among the allowed ones. -/
theorem MapAny.keysAmong_set {allowed : List String} {m : List (Value × Value)} {k : String}
    (v : Value) (hm : (Value.mapAny m).keysAmong allowed) (hk : k ∈ allowed) :
    (Value.mapAny (MapAny.set m k v)).keysAmong allowed :=
  MapAny.forall_keys_set (P := fun key => ∃ k ∈ allowed, key = .str k) hm ⟨k, hk, rfl⟩

namespace targetallocator

/-- The keys of the block `prometheusCRConfig`. -/
theorem prometheusCRConfig_keys {taSpec : v1beta1.TargetAllocatorSpec}
    {cr : List (Value × Value)} (h : prometheusCRConfig taSpec = .returns cr) :
    (Value.mapAny cr).keysAmong
      ["enabled", "scrape_interval", "service_monitor_selector", "pod_monitor_selector"] := by
  unfold prometheusCRConfig at h
  cases hs : taSpec.PrometheusCR.ScrapeInterval <;>
    simp only [hs, metav1.Duration.Size, metav1.Duration.deref, gt_iff_lt, Nat.lt_irrefl,
      if_false, Outcome.returns.injEq] at h
  · subst h
    repeat' (first
      | exact MapAny.keysAmong_nil _
      | refine MapAny.keysAmong_set _ ?_ ?_)
    all_goals simp
  · have hpos : 0 < 1 + sovGenerated ((‹metav1.Duration›.Duration % 2 ^ 64).toNat) := by omega
    simp only [hpos, if_true, Outcome.returns.injEq] at h
    subst h
    repeat' (first
      | exact MapAny.keysAmong_nil _
      | refine MapAny.keysAmong_set _ ?_ ?_)
    all_goals simp

/-- The top-level keys of the document `taConfig`. -/
theorem taConfig_keys {E : Env} {params : Params} {doc : Value}
    (h : taConfig E params = .returns (.ok doc)) :
    doc.keysAmong
      ["collector_selector", "config", "allocation_strategy", "filter_strategy",
        "prometheus_cr"] := by
  obtain ⟨cr, hcr, -⟩ := prometheusCRConfig_returns params.TargetAllocator.Spec
  unfold taConfig at h
  simp only at h
  cases hl : scrapeConfigs E params with
  | error err => simp [hl] at h
  | ok l =>
    simp only [hl, hcr] at h
    cases h1 : params.TargetAllocator.Spec.PrometheusCR.Enabled <;>
    by_cases h2 : l.length > 0 <;>
    by_cases h3 : params.TargetAllocator.Spec.AllocationStrategy.length > 0 <;>
    cases h4 : params.Collector <;>
    simp only [h1, h2, h3, h4, if_true, if_false, Bool.false_eq_true, Outcome.returns.injEq,
      Except.ok.injEq] at h <;>
    subst h <;>
    (repeat' (first
      | exact MapAny.keysAmong_nil _
      | refine MapAny.keysAmong_set _ ?_ ?_)) <;>
    simp

end targetallocator

/-- C15: on every input on which `ConfigMap` succeeds, every top-level key of the
synthesized document is one of `collector_selector`, `config`, `allocation_strategy`,
`filter_strategy`, `prometheus_cr`; the `config` mapping, when present, has exactly the one
key `scrape_configs`; and the `prometheus_cr` mapping, when present, has only keys among
`enabled`, `scrape_interval`, `service_monitor_selector`, `pod_monitor_selector`. -/
theorem C15_closed_key_layout (E : Env) (params : targetallocator.Params)
    (cm : corev1.ConfigMap)
    (hok : targetallocator.ConfigMap E params = .returns (some cm, none)) :
    ∃ doc, targetallocator.Synthesized E params cm doc ∧
      doc.keysAmong
        ["collector_selector", "config", "allocation_strategy", "filter_strategy",
          "prometheus_cr"] ∧
      (∀ config, doc.get? "config" = some config →
        ∃ scrapeConfigs, config = .mapStr [("scrape_configs", scrapeConfigs)]) ∧
      (∀ cr, doc.get? "prometheus_cr" = some cr →
        cr.keysAmong
          ["enabled", "scrape_interval", "service_monitor_selector",
            "pod_monitor_selector"]) := by
  obtain ⟨doc, hdoc⟩ := targetallocator.ConfigMap_ok hok
  obtain ⟨l, -, -, hcfg, -, -, cr, hcr, hget⟩ := targetallocator.taConfig_returns_ok hdoc.1
  refine ⟨doc, hdoc, targetallocator.taConfig_keys hdoc.1, ?_, ?_⟩
  · intro config hconfig
    rw [hcfg] at hconfig
    split at hconfig
    · injection hconfig with hconfig
      exact ⟨_, hconfig.symm⟩
    · exact Option.noConfusion hconfig
  · intro cr0 h0
    rw [hget] at h0
    split at h0
    · injection h0 with h0
      subst h0
      exact targetallocator.prometheusCRConfig_keys hcr
    · exact Option.noConfusion h0

/-- C15 at the call `Example.params`, whose document has all five top-level keys. -/
theorem C15_witness :
    ∃ doc,
      targetallocator.Synthesized refEnv Example.params (Example.returned Example.params) doc ∧
      doc.keysAmong
        ["collector_selector", "config", "allocation_strategy", "filter_strategy",
          "prometheus_cr"] ∧
      doc.keys =
        ["collector_selector", "config", "allocation_strategy", "filter_strategy",
          "prometheus_cr"] := by
  obtain ⟨doc, hdoc, hkeys, -⟩ :=
    C15_closed_key_layout refEnv Example.params (Example.returned Example.params) (by rfl)
  have hdoc' : targetallocator.taConfig refEnv Example.params = .returns (.ok doc) := hdoc.1
  have hkeys' : ∃ d, targetallocator.taConfig refEnv Example.params = .returns (.ok d) ∧
      d.keys = ["collector_selector", "config", "allocation_strategy", "filter_strategy",
        "prometheus_cr"] := ⟨_, by rfl, by rfl⟩
  obtain ⟨d, hd, hdk⟩ := hkeys'
  rw [hd] at hdoc'
  injection hdoc' with hdoc'
  injection hdoc' with hdoc'
  subst hdoc'
  exact ⟨d, hdoc, hkeys, hdk⟩

/-! ## The cross-version adapter's synthesis -/

/-- C16: for every collector resource with the target allocator enabled, if
`getScrapeConfigs` on the raw configuration text returns an error then `TargetAllocator`
returns that same error and a nil resource, and if it succeeds then `TargetAllocator`
returns a resource that is not nil, carrying the extracted scrape configs, and no error. -/
theorem C16_TargetAllocator_fails_only_through_extraction (E : Env) (params : collector.Params)
    (henabled : params.OtelCol.Spec.TargetAllocator.Enabled = true) :
    (∀ err, collector.getScrapeConfigs E.adapters params.OtelCol.Spec.Config = .error err →
      collector.TargetAllocator E params = (none, some err)) ∧
    (∀ scrapeConfigs,
      collector.getScrapeConfigs E.adapters params.OtelCol.Spec.Config = .ok scrapeConfigs →
      ∃ ta, collector.TargetAllocator E params = (some ta, none) ∧
        ta.Spec.ScrapeConfigs = scrapeConfigs) := by
  constructor
  · intro err herr
    simp [collector.TargetAllocator, henabled, herr]
  · intro scrapeConfigs hok
    simp [collector.TargetAllocator, henabled, hok]

/-- C16 at an enabled collector: with a configuration that lacks the key `config` the
result is the not-found error and no resource; with the configuration of
`TestDesiredConfigMap` the result is a resource and no error. -/
theorem C16_witness :
    collector.TargetAllocator refEnv
        (Example.otelCol true (Example.configText Example.agentConfigNoConfig)) =
      (none, some ⟨"no scrape_configs available as part of the configuration"⟩) ∧
    ∃ ta, collector.TargetAllocator refEnv
        (Example.otelCol true (Example.configText (Example.agentConfig [Example.relabelJob]))) =
      (some ta, none) ∧ ta.Spec.ScrapeConfigs = [Example.relabelDocument] :=
  ⟨(C16_TargetAllocator_fails_only_through_extraction refEnv
      (Example.otelCol true (Example.configText Example.agentConfigNoConfig)) rfl).1 _ (by rfl),
   (C16_TargetAllocator_fails_only_through_extraction refEnv
      (Example.otelCol true (Example.configText (Example.agentConfig [Example.relabelJob])))
      rfl).2 _ (by rfl)⟩

/-- C19: when the target allocator of the collector resource is not enabled,
`TargetAllocator` returns a nil resource and a nil error, whatever the configuration text
is and whatever the extraction would do on it. -/
theorem C19_disabled_returns_nil_nil (E : Env) (params : collector.Params)
    (hdisabled : params.OtelCol.Spec.TargetAllocator.Enabled = false) :
    collector.TargetAllocator E params = (none, none) := by
  simp [collector.TargetAllocator, hdisabled]

/-- C19 at a disabled collector whose configuration text is malformed: extraction fails on
the text, and the result is still `(nil, nil)`. -/
theorem C19_witness :
    (∃ err, collector.getScrapeConfigs refEnv.adapters Example.malformedText = .error err) ∧
    collector.TargetAllocator refEnv (Example.otelCol false Example.malformedText) =
      (none, none) :=
  ⟨⟨_, by rfl⟩,
   C19_disabled_returns_nil_nil refEnv (Example.otelCol false Example.malformedText) rfl⟩

/-! ## Order, count and errors of the extraction -/

namespace targetallocator

/-- When the entries before one normalize and that one fails, the loop returns its error. -/
theorem getScrapeConfigs.loop_first_error (Y : Yaml) (done : List Value) (config : Value)
    (rest : List Value) (err : Error)
    (hdone : ∀ c ∈ done, ∃ marshaled newConfig,
      Y.Marshal c = .ok marshaled ∧ Y.UnmarshalStringMap marshaled = .ok newConfig)
    (hfail : Y.Marshal config = .error err ∨
      ∃ marshaled, Y.Marshal config = .ok marshaled ∧
        Y.UnmarshalStringMap marshaled = .error err) :
    getScrapeConfigs.loop Y (done ++ config :: rest) = .error err := by
  induction done with
  | nil =>
    rcases hfail with hm | ⟨marshaled, hm, hu⟩
    · simp [getScrapeConfigs.loop, hm]
    · simp [getScrapeConfigs.loop, hm, hu]
  | cons c done ih =>
    obtain ⟨marshaled, newConfig, hm, hu⟩ := hdone c (List.mem_cons_self _ _)
    have htail := ih (fun c' hc' => hdone c' (List.mem_cons_of_mem _ hc'))
    simp [getScrapeConfigs.loop, hm, hu, htail]

end targetallocator

/-- C17: over the adapters of the specification, for every agent configuration on which
`getScrapeConfigs` succeeds, the text the extractor reads parses to a document whose path
`receivers.prometheus.config.scrape_configs` holds a sequence; the returned list has
exactly as many entries as that sequence, and its i-th entry is the i-th element of the
sequence marshalled and unmarshalled into a `map[string]any`. -/
theorem C17_order_and_count_preserved (Y : Yaml) (otelcolConfig : String)
    (entries : List AnyConfig)
    (hok : targetallocator.getScrapeConfigs Y (adapters.fromSpec Y) otelcolConfig =
      .ok entries) :
    ∃ document scrapeConfigs,
      Y.Unmarshal (adapters.unescapeText otelcolConfig) = .ok document ∧
      document.at? ["receivers", "prometheus", "config", "scrape_configs"] =
        some (.seq scrapeConfigs) ∧
      entries.length = scrapeConfigs.length ∧
      List.Forall₂ (fun config entry => ∃ marshaled newConfig,
        Y.Marshal config = .ok marshaled ∧
        Y.UnmarshalStringMap marshaled = .ok newConfig ∧
        entry = AnyConfig.mk newConfig) scrapeConfigs entries := by
  rw [targetallocator.getScrapeConfigs_fromSpec] at hok
  cases hparse : Y.Unmarshal (adapters.unescapeText otelcolConfig) with
  | error err => simp [hparse] at hok
  | ok document =>
    simp only [hparse, adapters.find_eq, adapters.scrapeConfigsPath] at hok
    cases hat : document.at? ["receivers", "prometheus", "config", "scrape_configs"] with
    | none => simp [hat] at hok
    | some v =>
      cases v with
      | seq scrapeConfigs =>
        simp only [hat] at hok
        have hall := targetallocator.getScrapeConfigs.loop_ok Y hok
        refine ⟨document, scrapeConfigs, rfl, hat, hall.length_eq.symm, hall.imp ?_⟩
        rintro config ⟨newConfig⟩ ⟨marshaled, hm, hum⟩
        exact ⟨marshaled, newConfig, hm, hum, rfl⟩
      | _ => simp [hat] at hok

/-- C17 at an agent configuration with the same job twice: two entries come out, in the
order of the source. -/
theorem C17_witness :
    targetallocator.getScrapeConfigs refYaml.lib (adapters.fromSpec refYaml.lib)
        (Example.configText (Example.agentConfig [Example.job, Example.regexJob "x", Example.job])) =
      .ok [Example.extractedJob,
        .mk [("job", .str "somejob"),
          ("metric_relabel_configs",
            .seq [.mapAny [(.str "action", .str "labelmap"), (.str "regex", .str "label_(.+)"),
              (.str "replacement", .str "x")]])],
        Example.extractedJob] ∧
    ∃ document scrapeConfigs,
      refYaml.lib.Unmarshal (adapters.unescapeText
        (Example.configText
          (Example.agentConfig [Example.job, Example.regexJob "x", Example.job]))) =
        .ok document ∧
      document.at? ["receivers", "prometheus", "config", "scrape_configs"] =
        some (.seq scrapeConfigs) ∧
      3 = scrapeConfigs.length := by
  have hrun : targetallocator.getScrapeConfigs refYaml.lib (adapters.fromSpec refYaml.lib)
      (Example.configText
        (Example.agentConfig [Example.job, Example.regexJob "x", Example.job])) =
      .ok [Example.extractedJob,
        .mk [("job", .str "somejob"),
          ("metric_relabel_configs",
            .seq [.mapAny [(.str "action", .str "labelmap"), (.str "regex", .str "label_(.+)"),
              (.str "replacement", .str "x")]])],
        Example.extractedJob] := by rfl
  obtain ⟨document, scrapeConfigs, hparse, hat, hlen, -⟩ :=
    C17_order_and_count_preserved refYaml.lib _ _ hrun
  exact ⟨hrun, document, scrapeConfigs, hparse, hat, hlen⟩

/-- C18: `getScrapeConfigs` returns no partial result. If the unescape step fails, or the
navigation step fails, or the entries before some entry normalize and the marshalling or
the unmarshalling of that entry fails, the result is a nil list together with that error,
as it was raised. -/
theorem C18_first_error_and_no_partial_result (Y : Yaml) (A : Adapters)
    (otelcolConfig : String) :
    (∀ err, A.UnescapeDollarSignsInPromConfig otelcolConfig = .error err →
      targetallocator.getScrapeConfigs Y A otelcolConfig = .error err) ∧
    (∀ prometheusReceiverConfig err,
      A.UnescapeDollarSignsInPromConfig otelcolConfig = .ok prometheusReceiverConfig →
      A.GetScrapeConfigsFromPromConfig prometheusReceiverConfig = .error err →
      targetallocator.getScrapeConfigs Y A otelcolConfig = .error err) ∧
    (∀ prometheusReceiverConfig done config rest err,
      A.UnescapeDollarSignsInPromConfig otelcolConfig = .ok prometheusReceiverConfig →
      A.GetScrapeConfigsFromPromConfig prometheusReceiverConfig =
        .ok (done ++ config :: rest) →
      (∀ c ∈ done, ∃ marshaled newConfig,
        Y.Marshal c = .ok marshaled ∧ Y.UnmarshalStringMap marshaled = .ok newConfig) →
      (Y.Marshal config = .error err ∨
        ∃ marshaled, Y.Marshal config = .ok marshaled ∧
          Y.UnmarshalStringMap marshaled = .error err) →
      targetallocator.getScrapeConfigs Y A otelcolConfig = .error err) := by
  refine ⟨?_, ?_, ?_⟩
  · intro err hu
    simp [targetallocator.getScrapeConfigs, hu]
  · intro cfg err hu hg
    simp [targetallocator.getScrapeConfigs, hu, hg]
  · intro cfg done config rest err hu hg hdone hfail
    simp only [targetallocator.getScrapeConfigs, hu, hg]
    exact targetallocator.getScrapeConfigs.loop_first_error Y done config rest err hdone hfail

/-- C18 at an agent configuration whose second scrape config is a string: the first entry
normalizes, the second cannot be unmarshalled into a mapping, and the result is that error
with no list. -/
theorem C18_witness :
    targetallocator.getScrapeConfigs.loop refYaml.lib [Example.relabelDocument] =
      .ok [Example.relabelEntry] ∧
    targetallocator.getScrapeConfigs refYaml.lib (adapters.fromSpec refYaml.lib)
        (Example.configText (Example.agentConfig [Example.relabelJob, .str "oops"])) =
      .error ⟨"yaml: unmarshal errors: cannot unmarshal into map[string]interface {}"⟩ :=
  ⟨by rfl,
   (C18_first_error_and_no_partial_result refYaml.lib (adapters.fromSpec refYaml.lib)
      (Example.configText (Example.agentConfig [Example.relabelJob, .str "oops"]))).2.2
      _ [Example.relabelDocument] (.str "oops") [] _ rfl (by rfl)
      (fun c hc => by
        rw [List.mem_singleton] at hc
        subst hc
        exact ⟨_, _, by rfl, by rfl⟩)
      (Or.inr ⟨_, by rfl, by rfl⟩)⟩

/-! ## The unset scrape interval -/

/-- The call `ConfigMap` never panics. -/
theorem targetallocator.ConfigMap_ne_panic (E : Env) (params : targetallocator.Params) :
    targetallocator.ConfigMap E params ≠ .panic := by
  obtain ⟨cr, hcr, -⟩ :=
    targetallocator.prometheusCRConfig_returns params.TargetAllocator.Spec
  unfold targetallocator.ConfigMap targetallocator.taConfig
  simp only [hcr]
  cases targetallocator.scrapeConfigs E params with
  | error err => simp
  | ok l =>
    simp only
    cases params.TargetAllocator.Spec.PrometheusCR.Enabled <;> simp only [if_true, if_false,
      Bool.false_eq_true] <;> split <;> simp

/-- C20: for every spec with discovery enabled and a nil `ScrapeInterval`, the guard
`Size() > 0` is false, so the read of the `Duration` field is not reached; `ConfigMap`
does not panic; the document is built whenever the scrape configs are collected; and on
success the `prometheus_cr` block has no `scrape_interval` key. -/
theorem C20_nil_scrape_interval_is_safe (E : Env) (params : targetallocator.Params)
    (henabled : params.TargetAllocator.Spec.PrometheusCR.Enabled = true)
    (hnil : params.TargetAllocator.Spec.PrometheusCR.ScrapeInterval = none) :
    ¬ metav1.Duration.Size params.TargetAllocator.Spec.PrometheusCR.ScrapeInterval > 0 ∧
    targetallocator.ConfigMap E params ≠ .panic ∧
    (∀ scrapeConfigs, targetallocator.scrapeConfigs E params = .ok scrapeConfigs →
      ∃ doc, targetallocator.taConfig E params = .returns (.ok doc)) ∧
    (∀ cm, targetallocator.ConfigMap E params = .returns (some cm, none) →
      ∃ doc cr, targetallocator.Synthesized E params cm doc ∧
        doc.get? "prometheus_cr" = some cr ∧
        cr.hasKey "enabled" = true ∧
        cr.hasKey "scrape_interval" = false) := by
  obtain ⟨cr, hcr, henabledKey, hinterval, -⟩ :=
    targetallocator.prometheusCRConfig_returns params.TargetAllocator.Spec
  refine ⟨by simp [hnil, metav1.Duration.Size], targetallocator.ConfigMap_ne_panic E params,
    ?_, ?_⟩
  · intro scrapeConfigs hsc
    simp [targetallocator.taConfig, hsc, henabled, hcr]
  · intro cm hok
    obtain ⟨doc, hdoc⟩ := targetallocator.ConfigMap_ok hok
    obtain ⟨l, -, -, -, -, -, cr', hcr', hget⟩ := targetallocator.taConfig_returns_ok hdoc.1
    rw [hcr] at hcr'
    injection hcr' with hcr'
    subst hcr'
    simp only [henabled, if_true] at hget
    refine ⟨doc, .mapAny cr, hdoc, hget, ?_, ?_⟩
    · simp [Value.hasKey, Value.get?, henabledKey]
    · simp [Value.hasKey, Value.get?, hinterval, hnil]

/-- C20 at the call `Example.paramsSelectors`, whose spec enables discovery and leaves the
interval nil: the call succeeds and the block has no `scrape_interval` key. -/
theorem C20_witness :
    targetallocator.ConfigMap refEnv Example.paramsSelectors =
      .returns (some (Example.returned Example.paramsSelectors), none) ∧
    ∃ doc cr,
      targetallocator.Synthesized refEnv Example.paramsSelectors
        (Example.returned Example.paramsSelectors) doc ∧
      doc.get? "prometheus_cr" = some cr ∧
      cr.hasKey "enabled" = true ∧
      cr.hasKey "scrape_interval" = false :=
  ⟨by rfl,
   (C20_nil_scrape_interval_is_safe refEnv Example.paramsSelectors rfl rfl).2.2.2
     (Example.returned Example.paramsSelectors) (by rfl)⟩
